import Mathlib

/-!
Verification development for the PCS invoice-reconstruction code base.

The Python sources are shallowly embedded as executable Lean functions:

* epic_parser.py      : group_by_lines, extract_invoice_data (OCR-token part)
* exodus_parser.py    : parse_exodus_invoice (text part)
* vendor_router.py    : detect_vendor_from_pdf, run_parser, main
* due_date_extractor.py : extract_due_date and helpers

Conventions of the embedding:

* OCR data (pytesseract output) is a list of tokens with text, left, top
  and confidence; PDF rasterisation and the OCR call itself are outside
  the model, the token list is the input.
* Python regular expressions are translated one by one into character
  scanners over lists of characters; each scanner carries the original
  pattern in its doc comment.  The needed character classes are modelled
  over ASCII (the Unicode digit classes of Python are wider, but nothing
  in the repository depends on non-ASCII digits).
* Python float() is modelled on the decimal literals that can actually
  reach it behind the guarding regexes: an optional whitespace margin,
  digits, an optional point and fraction digits.  Exponents, underscore
  grouping, signs, inf and nan are not modelled.
* Uncaught Python exceptions inside extract_invoice_data hit the outer
  handler of the function and give the result None; the embedding uses
  Option and Except accordingly.
* Python set iteration order over processed_products is not fixed across
  runs; the embedding threads an order oracle (a permutation of the key
  list) through the three loops that iterate the set, so that run-to-run
  determinism becomes a provable statement.
-/

namespace PCS

/-! ## Character and string primitives -/

/-- ASCII decimal digit, the model of the regex class \d. -/
def isDig (c : Char) : Bool := ('0' ≤ c && c ≤ '9')

/-- Whitespace as in the Python str.strip default and the regex class \s. -/
def isWsC (c : Char) : Bool :=
  c = ' ' || c = '\t' || c = '\n' || c = '\r' || c = '\x0b' || c = '\x0c'

/-- ASCII lowercase conversion, the model of str.lower. -/
def lowC (c : Char) : Char :=
  if 'A' ≤ c && c ≤ 'Z' then Char.ofNat (c.toNat + 32) else c

/-- Strip whitespace from both ends of a character list (str.strip). -/
def trimChars (l : List Char) : List Char :=
  ((l.dropWhile isWsC).reverse.dropWhile isWsC).reverse

/-- Python str.strip on strings. -/
def pyTrim (s : String) : String := String.mk (trimChars s.data)

/-- Python str.lower on strings (ASCII part). -/
def pyLower (s : String) : String := String.mk (s.data.map lowC)

/-- Substring test on character lists: needle occurs somewhere in hay. -/
def subIn (needle : List Char) : List Char → Bool
  | [] => needle.isEmpty
  | c :: cs => needle.isPrefixOf (c :: cs) || subIn needle cs

/-- Python membership test "needle in hay" on strings. -/
def strIn (hay needle : String) : Bool := subIn needle.data hay.data

/-- Python str.startswith. -/
def strStarts (s pre : String) : Bool := pre.data.isPrefixOf s.data

/-- Python str.split() with no argument: split on whitespace runs, no empties. -/
def pyWords (s : String) : List String :=
  (s.data.splitOnP isWsC).map String.mk |>.filter (fun w => w ≠ "")

/-- Python " ".join. -/
def joinSp (ws : List String) : String := String.intercalate " " ws

/-- Join a word list with single spaces and strip, as in " ".join(parts).strip(). -/
def joinTrim (ws : List String) : String := pyTrim (joinSp ws)

/-- Python str.replace(old, new) for single characters. -/
def replChar (a b : Char) (s : String) : String :=
  String.mk (s.data.map (fun c => if c = a then b else c))

/-- Python str.replace(old, "") for a single character: drop every occurrence. -/
def dropChar (a : Char) (s : String) : String :=
  String.mk (s.data.filter (fun c => c ≠ a))

/-- Numeric value of a digit list, most significant first. -/
def natOfDigits (l : List Char) : Nat :=
  l.foldl (fun n c => n * 10 + (c.toNat - 48)) 0

/-- Model of Python float() restricted to the decimal literals reachable
behind the guarding regex scans: optional whitespace margin, one or more
digits, optionally a point followed by zero or more digits.  The whole
string must be consumed.  Values are exact rationals. -/
def pyFloatChars (t0 : List Char) : Option ℚ :=
  let t := trimChars t0
  let ds := t.takeWhile isDig
  if ds.isEmpty then none
  else
    match t.drop ds.length with
    | [] => some (natOfDigits ds : ℚ)
    | '.' :: fs =>
        if fs.all isDig then
          some ((natOfDigits ds : ℚ) + (natOfDigits fs : ℚ) / (10 ^ fs.length : ℚ))
        else none
    | _ => none

/-- Python float() on strings. -/
def pyFloat? (s : String) : Option ℚ := pyFloatChars s.data

/-- A string parses as a non-negative decimal number (the invariant wording
of the specification). -/
def decimalStr (s : String) : Bool := (pyFloat? s).isSome

/-! ## Regex scanners shared by the parsers

Each scanner is the translation of one Python regex; the pattern is given
in the doc comment.  A scanner of type (List Char → Option r) matches at
the start of its input (re.match); scanFirst turns it into a leftmost
search (re.search). -/

/-- Turn an at-position matcher into a leftmost search, one start position
per character, as re.search does for the non-nullable patterns used here. -/
def scanFirst (f : List Char → Option α) : List Char → Option α
  | [] => f []
  | c :: cs =>
    match f (c :: cs) with
    | some r => some r
    | none => scanFirst f cs

/-- At-position match of a fragment digits-separator-two-digits, regex
\d+SEP\d{2} with SEP one of seps.  The plus is greedy; no backtracking can
occur because the separators are not digits.  Returns the matched prefix
together with the rest of the input. -/
def numSepTwoSplit (seps : List Char) (s : List Char) :
    Option (List Char × List Char) :=
  let ds := s.takeWhile isDig
  if ds.isEmpty then none
  else
    match s.drop ds.length with
    | sep :: d1 :: d2 :: rest =>
        if seps.contains sep && isDig d1 && isDig d2 then
          some (ds ++ [sep, d1, d2], rest)
        else none
    | _ => none

/-- Boolean prefix test for the pattern \d+[,.]\d{2} (re.match). -/
def numCommaDotPrefix (s : String) : Bool :=
  (numSepTwoSplit [',', '.'] s.data).isSome

/-- Boolean prefix test for the pattern \d+\.\d{2} (re.match). -/
def numDotPrefix (s : String) : Bool :=
  (numSepTwoSplit ['.'] s.data).isSome

/-- Captured group of re.match for the anchored pattern (\d+[,.]\d{2}),
applied in the source to line_text.strip(). -/
def qtyPrefixGroup (s : String) : Option String :=
  (numSepTwoSplit [',', '.'] s.data).map (fun p => String.mk p.1)

/-- Boolean prefix test for the pattern \$\d+\.\d{2} (re.match). -/
def dollarNumPrefix (s : String) : Bool :=
  match s.data with
  | '$' :: rest => (numSepTwoSplit ['.'] rest).isSome
  | _ => false

/-- At-position matcher for \$(\d+\.\d{2}): dollar sign, then the numeric
fragment; yields the captured group. -/
def dollarGroupAt (s : List Char) : Option String :=
  match s with
  | '$' :: rest => (numSepTwoSplit ['.'] rest).map (fun p => String.mk p.1)
  | _ => none

/-- re.search with pattern \$(\d+\.\d{2}); returns group 1. -/
def searchDollarGroup (s : String) : Option String :=
  scanFirst dollarGroupAt s.data

/-- re.search with pattern \d+\.\d{2}, used as a boolean test. -/
def searchNumDot (s : String) : Bool :=
  (scanFirst (fun l => (numSepTwoSplit ['.'] l).map (fun _ => ())) s.data).isSome

/-- At-position matcher for \$\(\d+\.\d{2}\): a parenthesised dollar amount,
the discount marker. -/
def parenDollarAt (s : List Char) : Option Unit :=
  match s with
  | '$' :: '(' :: rest =>
      match numSepTwoSplit ['.'] rest with
      | some (_, ')' :: _) => some ()
      | _ => none
  | _ => none

/-- re.search with pattern \$\(\d+\.\d{2}\). -/
def searchParenDollar (s : String) : Bool := (scanFirst parenDollarAt s.data).isSome

/-- At-position matcher for -\$\d+\.\d{2}: a negative dollar amount. -/
def negDollarAt (s : List Char) : Option Unit :=
  match s with
  | '-' :: '$' :: rest => (numSepTwoSplit ['.'] rest).map (fun _ => ())
  | _ => none

/-- re.search with pattern -\$\d+\.\d{2}. -/
def searchNegDollar (s : String) : Bool := (scanFirst negDollarAt s.data).isSome

/-- Candidate splits for the bounded repetition \d{1,2}: the two-digit
reading first (greedy), then the one-digit reading. -/
def d12Splits (s : List Char) : List (List Char × List Char) :=
  match s with
  | a :: b :: rest =>
      if isDig a && isDig b then [([a, b], rest), ([a], b :: rest)]
      else if isDig a then [([a], b :: rest)]
      else []
  | [a] => if isDig a then [([a], [])] else []
  | [] => []

/-- At-position matcher for \d{1,2}/\d{1,2}/\d{4}: returns the matched text
and the rest.  Backtracking over the two bounded repetitions follows the
greedy order of the Python engine. -/
def dateAt (s : List Char) : Option (List Char × List Char) :=
  (d12Splits s).findSome? fun (m, r1) =>
    match r1 with
    | '/' :: r2 =>
        (d12Splits r2).findSome? fun (d, r3) =>
          match r3 with
          | '/' :: y1 :: y2 :: y3 :: y4 :: r4 =>
              if isDig y1 && isDig y2 && isDig y3 && isDig y4 then
                some (m ++ '/' :: d ++ '/' :: [y1, y2, y3, y4], r4)
              else none
          | _ => none
    | _ => none

/-- Boolean prefix test for \d{1,2}/\d{1,2}/\d{4} (re.match on a word). -/
def datePrefix (s : String) : Bool := (dateAt s.data).isSome

/-- re.search for \d{1,2}/\d{1,2}/\d{4}; returns the matched text. -/
def searchDate (s : String) : Option String :=
  (scanFirst dateAt s.data).map (fun p => String.mk p.1)

/-! ## Calendar arithmetic

Model of the datetime operations used by the parsers: strptime with the
formats %m/%d/%Y and %Y-%m-%d, timedelta addition and strftime %m/%d/%Y.
Dates are proleptic Gregorian; toOrdinal matches date.toordinal (day 1 is
0001-01-01). -/

structure PDate where
  year : Nat
  month : Nat
  day : Nat
deriving DecidableEq, Repr

/-- Gregorian leap year. -/
def isLeap (y : Nat) : Bool := (y % 4 == 0 && y % 100 != 0) || y % 400 == 0

/-- Length of a month. -/
def monthLen (y m : Nat) : Nat :=
  match m with
  | 1 => 31 | 2 => if isLeap y then 29 else 28 | 3 => 31 | 4 => 30
  | 5 => 31 | 6 => 30 | 7 => 31 | 8 => 31 | 9 => 30 | 10 => 31
  | 11 => 30 | 12 => 31 | _ => 0

/-- Days in the months strictly before month m of year y. -/
def daysBeforeMonth (y m : Nat) : Nat :=
  (List.range (m - 1)).foldl (fun a i => a + monthLen y (i + 1)) 0

/-- date.toordinal: day number with 0001-01-01 as day 1. -/
def toOrdinal (d : PDate) : Nat :=
  365 * (d.year - 1) + (d.year - 1) / 4 - (d.year - 1) / 100 + (d.year - 1) / 400
    + daysBeforeMonth d.year d.month + d.day

/-- date.fromordinal, by the standard civil-from-days decomposition. -/
def fromOrdinal (n : Nat) : PDate :=
  let z : Int := (n : Int) + 305
  let era : Int := (if 0 ≤ z then z else z - 146096) / 146097
  let doe : Int := z - era * 146097
  let yoe : Int := (doe - doe / 1460 + doe / 36524 - doe / 146096) / 365
  let y : Int := yoe + era * 400
  let doy : Int := doe - (365 * yoe + yoe / 4 - yoe / 100)
  let mp : Int := (5 * doy + 2) / 153
  let d : Int := doy - (153 * mp + 2) / 5 + 1
  let m : Int := mp + (if mp < 10 then 3 else -9)
  let yr : Int := y + (if m ≤ 2 then 1 else 0)
  ⟨yr.toNat, m.toNat, d.toNat⟩

/-- Add a non-negative number of days (timedelta). -/
def addDays (d : PDate) (k : Nat) : PDate := fromOrdinal (toOrdinal d + k)

/-- Month field of strptime, regex alternation 1[0-2]|0[1-9]|[1-9] tried in
order.  The alternation needs no backtracking here: every two-digit reading
is followed by a digit, where the caller requires a separator. -/
def monthTok : List Char → Option (Nat × List Char)
  | a :: b :: rest =>
      if a = '1' && ('0' ≤ b && b ≤ '2') then some (10 + (b.toNat - 48), rest)
      else if a = '0' && ('1' ≤ b && b ≤ '9') then some (b.toNat - 48, rest)
      else if '1' ≤ a && a ≤ '9' then some (a.toNat - 48, b :: rest)
      else none
  | [a] => if '1' ≤ a && a ≤ '9' then some (a.toNat - 48, []) else none
  | [] => none

/-- Day field of strptime, regex alternation 3[01]|[12]\d|0[1-9]|[1-9]. -/
def dayTok : List Char → Option (Nat × List Char)
  | a :: b :: rest =>
      if a = '3' && (b = '0' || b = '1') then some (30 + (b.toNat - 48), rest)
      else if (a = '1' || a = '2') && isDig b then
        some (10 * (a.toNat - 48) + (b.toNat - 48), rest)
      else if a = '0' && ('1' ≤ b && b ≤ '9') then some (b.toNat - 48, rest)
      else if '1' ≤ a && a ≤ '9' then some (a.toNat - 48, b :: rest)
      else none
  | [a] => if '1' ≤ a && a ≤ '9' then some (a.toNat - 48, []) else none
  | [] => none

/-- Year field of strptime, regex \d\d\d\d. -/
def yearTok : List Char → Option (Nat × List Char)
  | a :: b :: c :: d :: rest =>
      if isDig a && isDig b && isDig c && isDig d then
        some (natOfDigits [a, b, c, d], rest)
      else none
  | _ => none

/-- Calendar validity as enforced by the datetime constructor. -/
def validDate (y m d : Nat) : Bool :=
  1 ≤ y && y ≤ 9999 && 1 ≤ d && d ≤ monthLen y m

/-- datetime.strptime(s, "%m/%d/%Y"): full match plus calendar check. -/
def parseMDY (s : String) : Option PDate := do
  let (m, r1) ← monthTok s.data
  let r2 ← match r1 with | '/' :: r => some r | _ => none
  let (d, r3) ← dayTok r2
  let r4 ← match r3 with | '/' :: r => some r | _ => none
  let (y, r5) ← yearTok r4
  if r5 = [] && validDate y m d then some ⟨y, m, d⟩ else none

/-- datetime.strptime(s, "%Y-%m-%d"): full match plus calendar check. -/
def parseYMD (s : String) : Option PDate := do
  let (y, r1) ← yearTok s.data
  let r2 ← match r1 with | '-' :: r => some r | _ => none
  let (m, r3) ← monthTok r2
  let r4 ← match r3 with | '-' :: r => some r | _ => none
  let (d, r5) ← dayTok r4
  if r5 = [] && validDate y m d then some ⟨y, m, d⟩ else none

/-- Zero-padded two-digit rendering. -/
def pad2 (n : Nat) : String := if n < 10 then "0" ++ toString n else toString n

/-- strftime("%m/%d/%Y"). -/
def fmtMDY (d : PDate) : String :=
  pad2 d.month ++ "/" ++ pad2 d.day ++ "/" ++ toString d.year

/-! ## due_date_extractor.py -/

/-- Eat one character out of a two-element class such as [Dd]. -/
def eat2 (a b : Char) : List Char → Option (List Char)
  | x :: r => if x = a || x = b then some r else none
  | [] => none

/-- Eat an exact literal. -/
def eatStr (lit : List Char) (s : List Char) : Option (List Char) :=
  if lit.isPrefixOf s then some (s.drop lit.length) else none

/-- Regex fragment \s+ (greedy; every use site is followed by a non-space
class, so the greedy reading is exact). -/
def ws1 : List Char → Option (List Char)
  | x :: r => if isWsC x then some ((x :: r).dropWhile isWsC) else none
  | [] => none

/-- Regex fragment \s*. -/
def ws0 (s : List Char) : List Char := s.dropWhile isWsC

/-- Regex fragment :? (greedy; never followed by a colon-compatible class). -/
def colonOpt : List Char → List Char
  | ':' :: r => r
  | s => s

/-- Regex fragment s? closing the word days?. -/
def sOpt : List Char → List Char
  | 's' :: r => r
  | s => s

/-- Regex fragment (\d+) capturing its numeric value (greedy; every use
site in the relative patterns is followed by a non-digit class). -/
def digits1 : List Char → Option (Nat × List Char)
  | s =>
    let ds := s.takeWhile isDig
    if ds.isEmpty then none else some (natOfDigits ds, s.drop ds.length)

/-- Rests after the greedy fragment C+ in backtracking order (longest
consumed first, at least one character). -/
def plusRests (p : Char → Bool) (s : List Char) : List (List Char) :=
  let r := (s.takeWhile p).length
  (List.range r).map (fun j => s.drop (r - j))

/-- Rests after the greedy fragment C* in backtracking order. -/
def starRests (p : Char → Bool) (s : List Char) : List (List Char) :=
  let r := (s.takeWhile p).length
  (List.range (r + 1)).map (fun j => s.drop (r - j))

/-- Pattern [Dd]ue\s+[Dd]ate\s*:?\s*(\d{1,2}/\d{1,2}/\d{4}). -/
def exDue1 (s : List Char) : Option String := do
  let s ← eat2 'D' 'd' s
  let s ← eatStr "ue".data s
  let s ← ws1 s
  let s ← eat2 'D' 'd' s
  let s ← eatStr "ate".data s
  let s := ws0 (colonOpt (ws0 s))
  let (m, _) ← dateAt s
  pure (String.mk m)

/-- Pattern [Dd]ue\s+[Bb]y\s*:?\s*(\d{1,2}/\d{1,2}/\d{4}). -/
def exDue2 (s : List Char) : Option String := do
  let s ← eat2 'D' 'd' s
  let s ← eatStr "ue".data s
  let s ← ws1 s
  let s ← eat2 'B' 'b' s
  let s ← eatStr "y".data s
  let s := ws0 (colonOpt (ws0 s))
  let (m, _) ← dateAt s
  pure (String.mk m)

/-- Pattern [Dd]ue\s*:?\s*(\d{1,2}/\d{1,2}/\d{4}). -/
def exDue3 (s : List Char) : Option String := do
  let s ← eat2 'D' 'd' s
  let s ← eatStr "ue".data s
  let s := ws0 (colonOpt (ws0 s))
  let (m, _) ← dateAt s
  pure (String.mk m)

/-- Pattern [Pp]ayment\s+[Dd]ue\s*:?\s*(\d{1,2}/\d{1,2}/\d{4}). -/
def exDue4 (s : List Char) : Option String := do
  let s ← eat2 'P' 'p' s
  let s ← eatStr "ayment".data s
  let s ← ws1 s
  let s ← eat2 'D' 'd' s
  let s ← eatStr "ue".data s
  let s := ws0 (colonOpt (ws0 s))
  let (m, _) ← dateAt s
  pure (String.mk m)

/-- Pattern [Aa]mount\s+[Dd]ue\s*:?\s*\$?[\d,]+\.?\d*\s*(\d{1,2}/\d{1,2}/\d{4}).
The numeric blob before the captured date needs genuine backtracking, which
is enumerated in the greedy order of the Python engine. -/
def exDue5 (s : List Char) : Option String := do
  let s ← eat2 'A' 'a' s
  let s ← eatStr "mount".data s
  let s ← ws1 s
  let s ← eat2 'D' 'd' s
  let s ← eatStr "ue".data s
  let s := ws0 (colonOpt (ws0 s))
  let s := match s with | '$' :: r => r | _ => s
  ((plusRests (fun c => isDig c || c = ',') s).flatMap fun r1 =>
    (match r1 with | '.' :: r2 => [r2, r1] | _ => [r1]).flatMap fun r2 =>
      starRests isDig r2).findSome? fun r3 =>
    (dateAt (ws0 r3)).map fun p => String.mk p.1

/-- Pattern [Nn]et\s+\d+\s*:?\s*(\d{1,2}/\d{1,2}/\d{4}); the leading digit
run can overlap the date, so it backtracks. -/
def exDue6 (s : List Char) : Option String := do
  let s ← eat2 'N' 'n' s
  let s ← eatStr "et".data s
  let s ← ws1 s
  (plusRests isDig s).findSome? fun r1 =>
    (dateAt (ws0 (colonOpt (ws0 r1)))).map fun p => String.mk p.1

/-- Pattern [Tt]erms?\s*:?\s*[Nn]et\s+\d+\s*(\d{1,2}/\d{1,2}/\d{4}). -/
def exDue7 (s : List Char) : Option String := do
  let s ← eat2 'T' 't' s
  let s ← eatStr "erm".data s
  let s := sOpt s
  let s := ws0 (colonOpt (ws0 s))
  let s ← eat2 'N' 'n' s
  let s ← eatStr "et".data s
  let s ← ws1 s
  (plusRests isDig s).findSome? fun r1 =>
    (dateAt (ws0 r1)).map fun p => String.mk p.1

/-- The ordered exact-due-date pattern list of due_date_extractor.py. -/
def exactDuePatterns : List (List Char → Option String) :=
  [exDue1, exDue2, exDue3, exDue4, exDue5, exDue6, exDue7]

/-- Function _extract_exact_due_date: first pattern whose first match
validates under strptime; an invalid match moves on to the next pattern. -/
def extract_exact_due_date (text : String) : Option String :=
  exactDuePatterns.findSome? fun pat =>
    match scanFirst pat text.data with
    | some d => if (parseMDY d).isSome then some d else none
    | none => none

/-- Pattern [Dd]ue\s+(\d+)\s+[Dd]ays?\s+[Ff]rom\s+[Dd]ate. -/
def relDue1 (s : List Char) : Option Nat := do
  let s ← eat2 'D' 'd' s
  let s ← eatStr "ue".data s
  let s ← ws1 s
  let (n, s) ← digits1 s
  let s ← ws1 s
  let s ← eat2 'D' 'd' s
  let s ← eatStr "ay".data s
  let s := sOpt s
  let s ← ws1 s
  let s ← eat2 'F' 'f' s
  let s ← eatStr "rom".data s
  let s ← ws1 s
  let s ← eat2 'D' 'd' s
  let _ ← eatStr "ate".data s
  pure n

/-- Pattern [Nn]et\s+(\d+)\s+[Dd]ays?. -/
def relDue2 (s : List Char) : Option Nat := do
  let s ← eat2 'N' 'n' s
  let s ← eatStr "et".data s
  let s ← ws1 s
  let (n, s) ← digits1 s
  let s ← ws1 s
  let s ← eat2 'D' 'd' s
  let s ← eatStr "ay".data s
  let _ := sOpt s
  pure n

/-- Pattern [Pp]ayment\s+[Tt]erms?\s*:?\s*(\d+)\s+[Dd]ays?. -/
def relDue3 (s : List Char) : Option Nat := do
  let s ← eat2 'P' 'p' s
  let s ← eatStr "ayment".data s
  let s ← ws1 s
  let s ← eat2 'T' 't' s
  let s ← eatStr "erm".data s
  let s := sOpt s
  let s := ws0 (colonOpt (ws0 s))
  let (n, s) ← digits1 s
  let s ← ws1 s
  let s ← eat2 'D' 'd' s
  let s ← eatStr "ay".data s
  let _ := sOpt s
  pure n

/-- Pattern [Tt]erms?\s*:?\s*[Nn]et\s+(\d+). -/
def relDue4 (s : List Char) : Option Nat := do
  let s ← eat2 'T' 't' s
  let s ← eatStr "erm".data s
  let s := sOpt s
  let s := ws0 (colonOpt (ws0 s))
  let s ← eat2 'N' 'n' s
  let s ← eatStr "et".data s
  let s ← ws1 s
  let (n, _) ← digits1 s
  pure n

/-- Pattern (\d+)\s+[Dd]ays?\s+[Ff]rom\s+[Ii]nvoice\s+[Dd]ate. -/
def relDue5 (s : List Char) : Option Nat := do
  let (n, s) ← digits1 s
  let s ← ws1 s
  let s ← eat2 'D' 'd' s
  let s ← eatStr "ay".data s
  let s := sOpt s
  let s ← ws1 s
  let s ← eat2 'F' 'f' s
  let s ← eatStr "rom".data s
  let s ← ws1 s
  let s ← eat2 'I' 'i' s
  let s ← eatStr "nvoice".data s
  let s ← ws1 s
  let s ← eat2 'D' 'd' s
  let _ ← eatStr "ate".data s
  pure n

/-- The ordered relative-due-date pattern list of due_date_extractor.py. -/
def relDuePatterns : List (List Char → Option Nat) :=
  [relDue1, relDue2, relDue3, relDue4, relDue5]

/-- Function _extract_relative_due_date: parse the invoice date (slash
format means %m/%d/%Y, otherwise %Y-%m-%d), then the first matching
relative pattern gives invoice date plus that many days. -/
def extract_relative_due_date (text : String) (invoice_date : String) :
    Option String :=
  let inv? :=
    if invoice_date.data.contains '/' then parseMDY invoice_date
    else parseYMD invoice_date
  match inv? with
  | none => none
  | some dt =>
      relDuePatterns.findSome? fun pat =>
        (scanFirst pat text.data).map fun days => fmtMDY (addDays dt days)

/-- Function extract_due_date: an exact due date wins; otherwise, when an
invoice date is supplied (and truthy), the relative computation. -/
def extract_due_date (text : String) (invoice_date : Option String) :
    Option String :=
  match extract_exact_due_date text with
  | some d => some d
  | none =>
      match invoice_date with
      | some inv => if inv ≠ "" then extract_relative_due_date text inv else none
      | none => none

/-! ## Data model of the OCR input and the invoice record -/

/-- One OCR word token: text with pixel position and confidence, the
per-index content of the pytesseract dictionary (text, left, top, conf).
Heights and widths are not read by the parser and are omitted. -/
structure Tok where
  text : String
  left : Int
  top : Int
  conf : Int
deriving DecidableEq, Repr

/-- One reconstructed line item, with the field names of the emitted JSON. -/
structure LineItem where
  product_number : String
  product_name : String
  Quantity : String
  unit_price : String
  line_item_total : String
deriving DecidableEq, Repr

/-- The assembled invoice record of epic_parser.extract_invoice_data. -/
structure EpicRecord where
  vendor : String
  invoice_number : String
  invoice_date : String
  total : String
  office_location : String
  vendor_name : String
  line_items : List LineItem
deriving DecidableEq, Repr

/-! ## group_by_lines (epic_parser.py lines 29-49) -/

/-- A clustered line: vertical key paired with token indices. -/
abbrev ClusterLine := Int × List Nat

/-- Attach index i with vertical position y to the first existing cluster
whose key is within the tolerance, else open a new cluster keyed at y. -/
def attachTok (tol : Nat) (y : Int) (i : Nat) :
    List ClusterLine → List ClusterLine
  | [] => [(y, [i])]
  | (k, is) :: rest =>
      if (y - k).natAbs ≤ tol then (k, is ++ [i]) :: rest
      else (k, is) :: attachTok tol y i rest

/-- One iteration of the token loop: blank words and words with confidence
below 30 are skipped. -/
def gblStep (tol : Nat) (acc : List ClusterLine) (it : Nat × Tok) : List ClusterLine :=
  if pyTrim it.2.text = "" || it.2.conf < 30 then acc
  else attachTok tol it.2.top it.1 acc

/-- Insert into a key-ascending list (model of dict(sorted(...)); the keys
are pairwise distinct by construction). -/
def insertByKey (p : ClusterLine) : List ClusterLine → List ClusterLine
  | [] => [p]
  | q :: rest => if p.1 ≤ q.1 then p :: q :: rest else q :: insertByKey p rest

/-- Sort the cluster list by ascending key. -/
def sortByKey (l : List ClusterLine) : List ClusterLine :=
  l.foldr insertByKey []

/-- Function group_by_lines: cluster tokens into lines by vertical
proximity, then order the mapping by ascending key. -/
def group_by_lines (ocr : List Tok) (tol : Nat) : List ClusterLine :=
  sortByKey (ocr.enum.foldl (gblStep tol) [])

/-! ## extract_invoice_data, header fields (epic_parser.py lines 51-245) -/

/-- Text of token i, empty for an out-of-range index (never hit on the
indices produced by group_by_lines). -/
def textAt (ocr : List Tok) (i : Nat) : String :=
  ((ocr.get? i).map Tok.text).getD ""

/-- Joined raw text of a line, " ".join over the token texts. -/
def lineTextOf (ocr : List Tok) (idxs : List Nat) : String :=
  joinSp (idxs.map (textAt ocr))

/-- The epic keyword gate (lines 72-75). -/
def epicKeywords : List String := ["epic dental lab", "epic dental", "epic lab"]

/-- Validator applied to a trimmed word in the invoice-number loop: an
optional hash prefix, all digits, total length at least four (counted on
the word including the hash), and no separator characters. -/
def invNumValid (w : String) : Bool :=
  ((strStarts w "#" && (w.data.drop 1) ≠ [] && (w.data.drop 1).all isDig)
    || (w.data ≠ [] && w.data.all isDig))
  && 4 ≤ w.length
  && !(w.data.contains '-' || w.data.contains '.' || w.data.contains '/')

/-- Hash removal, word.replace with the hash and the empty string. -/
def remHash (w : String) : String := dropChar '#' w

/-- Token loop of lines 110-127: walk the raw token texts in order; the
first word passing the validator sets the invoice number and breaks the
loop; before that, every word with a date-shaped prefix overwrites the
invoice date.  Returns (invoice_number, invoice_date). -/
def scanNumDate (date : String) : List String → String × String
  | [] => ("", date)
  | w0 :: rest =>
      let w := pyTrim w0
      if w = "" then scanNumDate date rest
      else if invNumValid w then (remHash w, date)
      else if datePrefix w then scanNumDate w rest
      else scanNumDate date rest

/-- Fallback of lines 130-137: first line whose joined text contains a
date; the matched fragment is taken. -/
def dateFromLines (ocr : List Tok) (lines : List ClusterLine) : String :=
  match lines.findSome? (fun l => searchDate (lineTextOf ocr l.2)) with
  | some d => d
  | none => ""

/-- First token of a line that is exactly Riddle or Roseburg (the inner
loops of the office extraction). -/
def firstRiddleRoseburg (ocr : List Tok) (idxs : List Nat) : Option String :=
  idxs.findSome? fun i =>
    let w := pyTrim (textAt ocr i)
    if w = "Riddle" || w = "Roseburg" then some w else none

/-- Office scan of lines 140-149: every customer-id line that contains one
of the two city words overwrites the office (the outer loop does not
break). -/
def officeCustomerId (ocr : List Tok) (lines : List ClusterLine) : String :=
  lines.foldl
    (fun off l =>
      if strIn (pyLower (lineTextOf ocr l.2)) "customer id" then
        match firstRiddleRoseburg ocr l.2 with
        | some w => w
        | none => off
      else off)
    ""

/-- Office fallback of lines 152-164: first line mentioning either city
that also carries one of the exact city words. -/
def officeFallback (ocr : List Tok) : List ClusterLine → String
  | [] => ""
  | l :: rest =>
      let lt := lineTextOf ocr l.2
      if strIn (pyLower lt) "roseburg" || strIn (pyLower lt) "riddle" then
        match firstRiddleRoseburg ocr l.2 with
        | some w => w
        | none => officeFallback ocr rest
      else officeFallback ocr rest

/-- Inner word loop of the total-marker scan (lines 175-190): a word with
a dollar prefix yields it with the dollar signs removed; otherwise a bare
two-decimal prefix is accepted when float() succeeds non-negatively; a
float() failure moves on to the next word. -/
def lineMarkerAmount (ocr : List Tok) (idxs : List Nat) : Option String :=
  idxs.findSome? fun i =>
    let w := textAt ocr i
    if dollarNumPrefix w then some (dropChar '$' w)
    else if numDotPrefix w then
      match pyFloat? w with
      | some a => if 0 ≤ a then some w else none
      | none => none
    else none

/-- Marker predicate of line 173: a total, amount-due or balance-due line
that is not an extended-amount line. -/
def totalMarkerLine (lt : String) : Bool :=
  (strIn lt "total" || strIn lt "amount due" || strIn lt "balance due")
    && !(strIn lt "extended")

/-- Marker loop of lines 170-192: the first marker line whose word scan
yields an amount. -/
def markerTotal (ocr : List Tok) : List ClusterLine → Option String
  | [] => none
  | l :: rest =>
      if totalMarkerLine (pyLower (lineTextOf ocr l.2)) then
        match lineMarkerAmount ocr l.2 with
        | some t => some t
        | none => markerTotal ocr rest
      else markerTotal ocr rest

/-- Word step of the fallback collection (lines 196-210).  A dollar word
whose remainder does not parse as a float raises an uncaught ValueError,
which the outer handler of extract_invoice_data turns into result None;
this is the error case.  Bare two-decimal words are kept when their value
lies in the plausible range 10..1000. -/
def collectStep (y : Int) (w : String) :
    Except Unit (List (ℚ × String × Int)) :=
    if dollarNumPrefix w then
      match pyFloat? (dropChar '$' w) with
      | some a => .ok [(a, dropChar '$' w, y)]
      | none => .error ()
    else if numDotPrefix w then
      match pyFloat? w with
      | some a => if 10 ≤ a && a ≤ 1000 then .ok [(a, w, y)] else .ok []
      | none => .ok []
    else .ok []

/-- Fallback collection over all lines and words (lines 195-210). -/
def collectDollarAmounts (ocr : List Tok) (lines : List ClusterLine) :
    Except Unit (List (ℚ × String × Int)) :=
  lines.foldl
    (fun acc l =>
      l.2.foldl
        (fun acc i => do
          let xs ← acc
          let ys ← collectStep l.1 (textAt ocr i)
          pure (xs ++ ys))
        acc)
    (.ok [])

/-- Stable descending sort by an integer key, the model of
list.sort(key=..., reverse=True): each element is inserted after the
existing elements whose key is at least its own. -/
def insertDescStable (key : α → Int) (x : α) : List α → List α
  | [] => [x]
  | y :: rest =>
      if key x ≤ key y then y :: insertDescStable key x rest
      else x :: y :: rest

/-- Stable descending sort (insertion formulation). -/
def pySortDesc (key : α → Int) (l : List α) : List α :=
  l.foldl (fun acc x => insertDescStable key x acc) []

/-- Discount scan of lines 223-228. -/
def discountFound (ocr : List Tok) (lines : List ClusterLine) : Bool :=
  lines.any fun l =>
    searchParenDollar (lineTextOf ocr l.2) || searchNegDollar (lineTextOf ocr l.2)

/-- Total resolution of lines 166-236: marker tier, then the collected
amount with the largest vertical position (stable descending sort, first
entry), else the 0.00 default (the same in both discount branches). -/
def totalOfLines (ocr : List Tok) (lines : List ClusterLine) :
    Except Unit String :=
  match markerTotal ocr lines with
  | some t => .ok t
  | none => do
      let das ← collectDollarAmounts ocr lines
      match (pySortDesc (fun x => x.2.2) das).head? with
      | some top => pure top.2.1
      | none => pure (if discountFound ocr lines then "0.00" else "0.00")

/-! ## extract_invoice_data, line-item reconstruction (lines 247-1088)

The canonicalization chains (if/elif ladders mapping noisy product text to
a canonical number/name pair) are represented as ordered rule tables with
first-match lookup; each pass of the source has its own chain. -/

/-- One canonicalization rule: trigger substrings and the canonical pair. -/
abbrev CanonRule := List String × String × String

/-- First-match lookup over a rule table; unmatched text is its own number
and name. -/
def canonLookup (rules : List CanonRule) (pt : String) : String × String :=
  match rules.find? (fun r => r.1.any (fun k => strIn (pyLower pt) k)) with
  | some r => r.2
  | none => (pt, pt)

/-- Chain of the complete-line pass (lines 428-458). -/
def canonCompleteRules : List CanonRule :=
  [ (["set up/process"], "Set up/Process LRPD", "Set up & process lower RPD to finish"),
    (["teeth lrpd"], "Teeth LRPD", "Teeth LRPD"),
    (["process fud"], "Process FUD", "Process FUD to finish"),
    (["framework lrpd", "framework urpd"], "Framework LRPD", "Upper cast partial framework"),
    (["wax rim lower", "waxrimiower"], "wax rim lower", "Lower wax bite rim"),
    (["wax bite rim"], "Wax bite rim", "Upper wax bite rim"),
    (["process lrpd", "process lower partial"], "Process LRPD", "Process lower partial to finish"),
    (["id tag"], "ID Tag", "ID Tag"),
    (["acrylic urpd"], "Acrylic URPD", "Acrylic URPD (5-9 units)") ]

/-- Chain shared by the pairing pass (lines 536-567) and the
fallback complete branch (lines 675-707), which are identical ladders. -/
def canonPairRules : List CanonRule :=
  [ (["set lrpd", "set up lrpd"], "Set LRPD", "Set LRPD for try-in"),
    (["set urpd", "set up urpd"], "Set URPD", "Set URPD for try-in"),
    (["teeth lrpd"], "Teeth LRPD", "Teeth LRPD"),
    (["teeth urpd"], "Teeth URPD", "Teeth URPD"),
    (["set up/process"], "Set up/Process LRPD", "Set up & process lower RPD to finish"),
    (["process fud"], "Process FUD", "Process FUD to finish"),
    (["framework lrpd", "framework urpd"], "Framework LRPD", "Upper cast partial framework"),
    (["wax rim lower", "waxrimiower"], "wax rim lower", "Lower wax bite rim"),
    (["wax bite rim"], "Wax bite rim", "Upper wax bite rim"),
    (["process lrpd", "process lower partial"], "Process LRPD", "Process lower partial to finish"),
    (["id tag"], "ID Tag", "ID Tag") ]

/-- Chain of the mis-reading handler in the borrowed-price branch
(lines 797-806); the right brace is written as an escape. -/
def canonMisreadRules : List CanonRule :=
  [ (["waxrimtower"], "wax rim lower", "Lower wax bite rim"),
    (["_1.00\x7dwaxrimtower"], "wax rim lower", "Lower wax bite rim") ]

/-- Chain of the remaining price-only pass (lines 883-921). -/
def canonRemainingRules : List CanonRule :=
  [ (["acrylic urpd"], "Acrylic URPD", "Acrylic URPD (5-9 units)"),
    (["set of premium teeth"], "Set of premium teeth", "Set of premium teeth"),
    (["set lrpd", "set up lrpd"], "Set LRPD", "Set LRPD for try-in"),
    (["set urpd", "set up urpd"], "Set URPD", "Set URPD for try-in"),
    (["teeth lrpd"], "Teeth LRPD", "Teeth LRPD"),
    (["teeth urpd"], "Teeth URPD", "Teeth URPD"),
    (["set up/process"], "Set up/Process LRPD", "Set up & process lower RPD to finish"),
    (["process fud"], "Process FUD", "Process FUD to finish"),
    (["framework lrpd", "framework urpd"], "Framework LRPD", "Upper cast partial framework"),
    (["wax rim lower", "waxrimiower"], "wax rim lower", "Lower wax bite rim"),
    (["wax bite rim"], "Wax bite rim", "Upper wax bite rim"),
    (["process lrpd", "process lower partial"], "Process LRPD", "Process lower partial to finish"),
    (["id tag"], "ID Tag", "ID Tag") ]

/-- Chain of the final price-line pass (lines 1018-1047). -/
def canonLastRules : List CanonRule :=
  [ (["set of premium teeth"], "Set of premium teeth", "Set of premium teeth"),
    (["set lrpd", "set up lrpd"], "Set LRPD", "Set LRPD for try-in"),
    (["set urpd", "set up urpd"], "Set URPD", "Set URPD for try-in"),
    (["set-up fud", "set up fud"], "Set-up FUD", "Set-up wax try in of FUD"),
    (["teeth lrpd"], "Teeth LRPD", "Teeth LRPD"),
    (["teeth urpd"], "Teeth URPD", "Teeth URPD"),
    (["wax bite rim"], "Wax bite rim", "Upper wax bite rim"),
    (["framework lrpd"], "Framework LRPD", "Lower cast partial framework"),
    (["framework urpd"], "Framework URPD", "Upper cast partial framework"),
    (["acrylic urpd"], "Acrylic URPD 5-9", "Acrylic URPD (5-9 units)") ]

/-- A relevant line: vertical key, joined text, token indices. -/
structure RelLine where
  y : Int
  lt : String
  idxs : List Nat
deriving DecidableEq, Repr

/-- A complete candidate: quantity and price found on the line itself. -/
structure CLine where
  y : Int
  lt : String
  idxs : List Nat
  price : String
  qty : String
deriving DecidableEq, Repr

/-- A quantity-only candidate. -/
structure QLine where
  y : Int
  lt : String
  idxs : List Nat
  qty : String
deriving DecidableEq, Repr

/-- A price-only candidate; qty is the nearby quantity borrowed during
classification (default 1). -/
structure PLine where
  y : Int
  lt : String
  idxs : List Nat
  price : String
  qty : String
deriving DecidableEq, Repr

/-- Start-marker keywords of line 256. -/
def startKeywords : List String := ["qty", "quantity", "product", "tooth", "item"]

/-- Marker loop of lines 251-264: the start marker keeps being overwritten
until the end marker breaks the loop. -/
def boundsScan (ocr : List Tok) : List ClusterLine → Option Int → Option Int × Option Int
  | [], st => (st, none)
  | l :: rest, st =>
      let lt := pyLower (lineTextOf ocr l.2)
      let st2 := if startKeywords.any (fun k => strIn lt k) then some l.1 else st
      if strIn lt "extended amount" || strIn lt "total" then (st2, some l.1)
      else boundsScan ocr rest st2

/-- Start fallback of lines 267-279: first line with a two-decimal amount
whose word list has a digit-initial word and a two-decimal word. -/
def boundsFallback1 (ocr : List Tok) : List ClusterLine → Option Int
  | [] => none
  | l :: rest =>
      let lt := lineTextOf ocr l.2
      if searchNumDot lt && searchNumDot lt then
        let ws := pyWords lt
        let hasQ := ws.any fun w => match w.data with | c :: _ => isDig c | [] => false
        let hasP := ws.any numDotPrefix
        if hasQ && hasP then some l.1 else boundsFallback1 ocr rest
      else boundsFallback1 ocr rest

/-- Start fallback of lines 282-288: first line with a dollar amount. -/
def boundsFallback2 (ocr : List Tok) : List ClusterLine → Option Int
  | [] => none
  | l :: rest =>
      if (searchDollarGroup (lineTextOf ocr l.2)).isSome then some l.1
      else boundsFallback2 ocr rest

/-- Combined bounds: the marker scan, then the two fallbacks (lines 248-288). -/
def itemBounds (ocr : List Tok) (lines : List ClusterLine) : Option Int × Option Int :=
  let bs := boundsScan ocr lines none
  let startY :=
    match bs.1 with
    | some s => some s
    | none =>
        match boundsFallback1 ocr lines with
        | some s => some s
        | none => boundsFallback2 ocr lines
  (startY, bs.2)

/-- Body collection of lines 293-303: walk the ascending lines, break at
the end marker, skip lines at or above the start, keep non-blank texts. -/
def relevantBody (ocr : List Tok) (sy : Int) (ey : Option Int) :
    List ClusterLine → List RelLine
  | [] => []
  | l :: rest =>
      if (match ey with | some e => decide (e ≤ l.1) | none => false) then []
      else if l.1 ≤ sy then relevantBody ocr sy ey rest
      else
        let lt := lineTextOf ocr l.2
        if pyTrim lt ≠ "" then ⟨l.1, lt, l.2⟩ :: relevantBody ocr sy ey rest
        else relevantBody ocr sy ey rest

/-- Relevant lines of lines 293-308: the body plus the start line itself
inserted at the front when non-blank. -/
def relevantLines (ocr : List Tok) (lines : List ClusterLine) (sy : Int)
    (ey : Option Int) : List RelLine :=
  let base := relevantBody ocr sy ey lines
  let sidx := match lines.find? (fun l => l.1 = sy) with | some l => l.2 | none => []
  let st := lineTextOf ocr sidx
  if pyTrim st ≠ "" then ⟨sy, st, sidx⟩ :: base else base

/-- Domain keyword list of line 320. -/
def productKeywords : List String :=
  ["process", "fud", "lrpd", "urpd", "framework", "wax", "rim", "teeth",
   "set", "up", "lower", "upper", "finish", "id", "tag", "at", "oe", "acrylic"]

/-- Header/footer skip phrases of line 324. -/
def skipHeaderPhrases : List String :=
  ["product id", "qty", "tooth", "ices", "| to", "extended",
   "invoice subtotal", "teeth"]

/-- Product-line selection of lines 317-332, then the stable sort by
descending text length of line 332. -/
def productLinesOf (rel : List RelLine) : List RelLine :=
  pySortDesc (fun r => (r.lt.length : Int))
    (rel.filter fun r =>
      (productKeywords.any fun k => strIn (pyLower r.lt) k)
      && 3 < (pyTrim r.lt).length
      && !(skipHeaderPhrases.any fun h => strIn (pyLower r.lt) h))

/-- Comma-to-period normalisation of captured quantities. -/
def commaDot (s : String) : String := replChar ',' '.' s

/-- Nearby-quantity search of lines 369-375 and 977-983: the first
relevant line within 100 pixels with a quantity-shaped prefix; default 1. -/
def nearbyQuantity (rel : List RelLine) (y : Int) : String :=
  match rel.findSome? (fun n =>
      if (n.y - y).natAbs ≤ 100 then (qtyPrefixGroup (pyTrim n.lt)).map commaDot
      else none) with
  | some q => q
  | none => "1"

/-- One step of the classification of lines 342-378. -/
def classifyStep (rel : List RelLine)
    (acc : List CLine × List QLine × List PLine) (r : RelLine) :
    List CLine × List QLine × List PLine :=
  let dollar := searchDollarGroup r.lt
  let qm := qtyPrefixGroup (pyTrim r.lt)
  match dollar, qm with
  | some price, some q =>
      (acc.1 ++ [⟨r.y, r.lt, r.idxs, price, commaDot q⟩], acc.2.1, acc.2.2)
  | none, some q =>
      (acc.1, acc.2.1 ++ [⟨r.y, r.lt, r.idxs, commaDot q⟩], acc.2.2)
  | some price, none =>
      (acc.1, acc.2.1,
        acc.2.2 ++ [⟨r.y, r.lt, r.idxs, price, nearbyQuantity rel r.y⟩])
  | none, none => acc

/-- Classification of lines 342-378 into complete, quantity-only and
price-only candidates, in product-line order. -/
def classifyLines (rel : List RelLine) (pl : List RelLine) :
    List CLine × List QLine × List PLine :=
  pl.foldl (classifyStep rel) ([], [], [])

/-- Word filter of lines 386-391 and its copies: trimmed, non-blank, not
quantity-shaped, not dollar-initial. -/
def wordsFilterA (ocr : List Tok) (idxs : List Nat) : List String :=
  idxs.filterMap fun i =>
    let w := pyTrim (textAt ocr i)
    if w ≠ "" && !numCommaDotPrefix w && !strStarts w "$" then some w else none

/-- Borrowing of lines 396-407: extend a short product text with the words
of the first relevant line within 100 pixels that has any. -/
def borrowNearbyA (ocr : List Tok) (rel : List RelLine) (y : Int)
    (parts : List String) : List String :=
  match rel.findSome? (fun n =>
      if (n.y - y).natAbs ≤ 100 then
        let nw := wordsFilterA ocr n.idxs
        if nw ≠ [] then some nw else none
      else none) with
  | some nw => parts ++ nw
  | none => parts

/-- Partial-description indicator words of lines 416 and 525. -/
def partialIndicators : List String :=
  ["to", "up", "process", "upper", "lower", "cast", "partial", "framework", "finish"]

/-- The emission log: each appended item together with the key string that
the source adds to processed_products at the same moment (every add to
processed_products is immediately followed by the append of one item). -/
abbrev ItemLog := List (String × LineItem)

/-- Keys of the log, the processed_products content in insertion order. -/
def logKeys (log : ItemLog) : List String := log.map Prod.fst

/-- Items of the log, the line_items list. -/
def logItems (log : ItemLog) : List LineItem := log.map Prod.snd

/-- One step of the complete-line pass (lines 381-479). -/
def passCompleteStep (ocr : List Tok) (rel : List RelLine) (log : ItemLog)
    (c : CLine) : ItemLog :=
  let parts := wordsFilterA ocr c.idxs
  let parts := if (joinTrim parts).length < 5 then borrowNearbyA ocr rel c.y parts else parts
  let pt := joinTrim parts
  if pt.length < 3 then log
  else if (pyWords pt).length ≤ 1
          && partialIndicators.any (fun k => strIn (pyLower pt) k) then log
  else
    let pn := canonLookup canonCompleteRules pt
    let key := toString c.y
    if (logKeys log).contains key then log
    else log ++ [(key, ⟨pn.1, pn.2, c.qty, c.price, c.price⟩)]

/-- Complete-line pass. -/
def passComplete (ocr : List Tok) (rel : List RelLine) (cs : List CLine)
    (log : ItemLog) : ItemLog :=
  cs.foldl (passCompleteStep ocr rel) log

/-- Best-match search of lines 484-498: the nearest price-only line within
200 pixels that shares a lowercased word with the quantity line or lies
within 50 pixels. -/
def bestStep (qY : Int) (qlt : String) (best : Option (PLine × Nat))
    (p : PLine) : Option (PLine × Nat) :=
  let d := (p.y - qY).natAbs
  if d ≤ 200 && (match best with | none => true | some b => decide (d < b.2)) then
    let qws := pyWords (pyLower qlt)
    let pws := pyWords (pyLower p.lt)
    if qws.any (fun w => pws.contains w) || d ≤ 50 then some (p, d) else best
  else best

/-- Result of the search: the candidate held at the end of the loop. -/
def findBestMatch (qY : Int) (qlt : String) (ps : List PLine) : Option PLine :=
  (ps.foldl (bestStep qY qlt) none).map Prod.fst

/-- Quantity-side word filter of lines 507-510: additionally drops the
pipe character and the words teeth and tooth. -/
def qWordsFilter (ocr : List Tok) (idxs : List Nat) : List String :=
  idxs.filterMap fun i =>
    let w := pyTrim (textAt ocr i)
    if w ≠ "" && !numCommaDotPrefix w && !strStarts w "$" && w ≠ "|"
       && !(pyLower w = "teeth" || pyLower w = "tooth") then some w else none

/-- Price-side word filter of lines 513-516 (dot-separated amounts only). -/
def pWordsFilter (ocr : List Tok) (idxs : List Nat) : List String :=
  idxs.filterMap fun i =>
    let w := pyTrim (textAt ocr i)
    if w ≠ "" && !numDotPrefix w && !strStarts w "$" then some w else none

/-- One step of the pairing pass (lines 482-591).  The emitted quantity is
the qty stored on the matched price-only line: in the source the loop
variable of line 487 shadows the quantity of the quantity-only line, so
the value from line 501 is the price-line one. -/
def passPairStep (ocr : List Tok) (ps : List PLine) (log : ItemLog)
    (q : QLine) : ItemLog :=
  match findBestMatch q.y q.lt ps with
  | none => log
  | some p =>
      let pt := joinTrim (qWordsFilter ocr q.idxs ++ pWordsFilter ocr p.idxs)
      if pt.length < 5 then log
      else if (pyWords pt).length ≤ 2
              && partialIndicators.any (fun k => strIn (pyLower pt) k) then log
      else
        let pn := canonLookup canonPairRules pt
        let key := toString q.y ++ "_" ++ toString p.y
        if (logKeys log).contains key then log
        else log ++ [(key, ⟨pn.1, pn.2, p.qty, p.price, p.price⟩)]

/-- Pairing pass. -/
def passPair (ocr : List Tok) (ps : List PLine) (qs : List QLine)
    (log : ItemLog) : ItemLog :=
  qs.foldl (passPairStep ocr ps) log

/-- Word filter list of line 760. -/
def fallbackFilterWords : List String :=
  ["|", "to", "up", "upper", "lower", "cast", "partial", "framework", "wax",
   "try", "in", "of", "for", "set", "teeth", "product", "id"]

/-- Generic single words of line 774. -/
def genericWords : List String :=
  ["process", "up", "to", "in", "of", "for", "set", "teeth"]

/-- Fifth-word list of the duplicate-phrase check of line 793. -/
def dupPhraseTail : List String :=
  ["to", "up", "process", "upper", "lower", "cast", "partial", "framework"]

/-- Complete branch of the fallback pass (lines 633-738): the line carries
both shapes but was filtered out of the main classification paths. -/
def fallbackCompleteBranch (ocr : List Tok) (rel : List RelLine)
    (log : ItemLog) (r : RelLine) (price q : String) : ItemLog :=
  let qty := commaDot q
  let parts := wordsFilterA ocr r.idxs
  let parts :=
    if (joinTrim parts).length < 5 then borrowNearbyA ocr rel r.y parts else parts
  let pt := joinTrim parts
  if pt.length < 3 then log
  else
    let pn := canonLookup canonPairRules pt
    let key := toString r.y
    if (logKeys log).contains key then log
    else log ++ [(key, ⟨pn.1, pn.2, qty, price, price⟩)]

/-- Borrowed-price branch of the fallback pass (lines 740-832): the first
dollar amount anywhere in the relevant region is borrowed, the quantity
defaults to 1. -/
def fallbackBorrowBranch (ocr : List Tok) (rel : List RelLine)
    (log : ItemLog) (r : RelLine) : ItemLog :=
  match rel.findSome? (fun n => searchDollarGroup n.lt) with
  | none => log
  | some price =>
      let lw := r.idxs.filterMap fun i =>
          let w := pyTrim (textAt ocr i)
          if w ≠ "" && !numDotPrefix w && !strStarts w "$"
             && !(fallbackFilterWords.contains (pyLower w)) then some w
          else none
      let pt := joinTrim lw
      if pt.length < 5 then log
      else if (pyWords pt).length = 1 && genericWords.contains (pyLower pt) then log
      else if strStarts pt "|" || strStarts pt "to " || strStarts pt "up " then log
      else
        let ws := pyWords pt
        if 2 ≤ ws.length && ws.get? 0 = ws.get? 1 then log
        else if 4 ≤ ws.length && ws.get? 0 = ws.get? 2 && ws.get? 1 = ws.get? 3
                && (ws.length ≤ 4
                    || (match ws.get? 4 with
                        | some w4 => dupPhraseTail.contains (pyLower w4)
                        | none => false)) then log
        else
          let pn := canonLookup canonMisreadRules pt
          let key := toString r.y
          if (logKeys log).contains key then log
          else log ++ [(key, ⟨pn.1, pn.2, "1", price, price⟩)]

/-- One step of the fallback pass over product lines (lines 595-832).
The duplicate checks of lines 719-725 and 814-819 iterate line_items with
a continue statement that binds the inner loop, so they never skip
anything, and the embedding omits them. -/
def passFallbackStep (sig : List String → List String) (ocr : List Tok)
    (rel : List RelLine) (pl : List RelLine) (log : ItemLog) (r : RelLine) :
    ItemLog :=
  let keys := logKeys log
  let alreadyA := (sig keys).any fun k => strStarts k (toString r.y ++ "_")
  let alreadyB := (logItems log).any fun it =>
      (strIn r.lt it.product_number
        || strIn (pyLower it.product_name) (pyLower r.lt))
      && (match searchDollarGroup r.lt with
          | some g => g = it.unit_price
          | none => false)
  if alreadyA || alreadyB then log
  else if pl.any (fun o => o.y ≠ r.y && (o.y - r.y).natAbs ≤ 30) then log
  else
    match searchDollarGroup r.lt, qtyPrefixGroup (pyTrim r.lt) with
    | some price, some q => fallbackCompleteBranch ocr rel log r price q
    | _, _ => fallbackBorrowBranch ocr rel log r

/-- Fallback pass. -/
def passFallback (sig : List String → List String) (ocr : List Tok)
    (rel : List RelLine) (pl : List RelLine) (log : ItemLog) : ItemLog :=
  pl.foldl (passFallbackStep sig ocr rel pl) log

/-- One step of the remaining price-only pass (lines 835-956). -/
def passRemainingStep (sig : List String → List String) (ocr : List Tok)
    (rel : List RelLine) (log : ItemLog) (p : PLine) : ItemLog :=
  let keys := logKeys log
  if (sig keys).any (fun k => strStarts k (toString p.y ++ "_")) then log
  else
    let parts := wordsFilterA ocr p.idxs
    let parts :=
      if (joinTrim parts).length < 5 then borrowNearbyA ocr rel p.y parts else parts
    let pt := joinTrim parts
    if pt.length < 3 then log
    else
      let pn := canonLookup canonRemainingRules pt
      let key := toString p.y
      if keys.contains key then log
      else if (logItems log).any
          (fun it => it.product_number = pn.1 && it.unit_price = p.price) then log
      else log ++ [(key, ⟨pn.1, pn.2, p.qty, p.price, p.price⟩)]

/-- Remaining price-only pass. -/
def passRemaining (sig : List String → List String) (ocr : List Tok)
    (rel : List RelLine) (ps : List PLine) (log : ItemLog) : ItemLog :=
  ps.foldl (passRemainingStep sig ocr rel) log

/-- Word filter list of line 996. -/
def lastWordFilterSkip : List String := ["tooth", "product", "id", "|"]

/-- Skip-substring list of line 1009. -/
def mSkipWords : List String :=
  ["|", "to", "extended", "invoice", "subtotal", "tooth", "product id"]

/-- Longest nearby product text of lines 986-1005. -/
def bestNearbyText (ocr : List Tok) (rel : List RelLine) (y : Int) : String :=
  (rel.foldl
    (fun best n =>
      if (n.y - y).natAbs ≤ 100 then
        let nw := n.idxs.filterMap fun i =>
          let w := pyTrim (textAt ocr i)
          if w ≠ "" && !numCommaDotPrefix w && !strStarts w "$"
             && !(lastWordFilterSkip.contains (pyLower w)) then some w else none
        if nw ≠ [] then
          let cur := joinTrim nw
          if best.2 < cur.length then (cur, cur.length) else best
        else best
      else best)
    ("", 0)).1

/-- One step of the final price-line pass over all relevant lines
(lines 959-1084). -/
def passLastStep (sig : List String → List String) (ocr : List Tok)
    (rel : List RelLine) (log : ItemLog) (r : RelLine) : ItemLog :=
  let keys := logKeys log
  if (sig keys).any (fun k => strStarts k (toString r.y ++ "_")) then log
  else
    match searchDollarGroup r.lt with
    | none => log
    | some price =>
        let qty := nearbyQuantity rel r.y
        let pt := bestNearbyText ocr rel r.y
        if pt = "" then log
        else if mSkipWords.any (fun sw => strIn (pyLower pt) sw) then log
        else
          let pn := canonLookup canonLastRules pt
          if (logItems log).any
              (fun it => it.product_number = pn.1 && it.unit_price = price) then log
          else if keys.contains (toString r.y) then log
          else log ++ [(toString r.y, ⟨pn.1, pn.2, qty, price, price⟩)]

/-- Final price-line pass. -/
def passLast (sig : List String → List String) (ocr : List Tok)
    (rel : List RelLine) (log : ItemLog) : ItemLog :=
  rel.foldl (passLastStep sig ocr rel) log

/-- The five reconstruction passes in source order, over the emission log. -/
def extractLineItems (sig : List String → List String) (ocr : List Tok)
    (rel : List RelLine) : ItemLog :=
  let pl := productLinesOf rel
  let cls := classifyLines rel pl
  let log1 := passComplete ocr rel cls.1 []
  let log2 := passPair ocr cls.2.2 cls.2.1 log1
  let log3 := passFallback sig ocr rel pl log2
  let log4 := passRemaining sig ocr rel cls.2.2 log3
  passLast sig ocr rel log4

/-- The emission log of one document: empty when no start marker is found. -/
def epicItemLogO (sig : List String → List String) (ocr : List Tok) : ItemLog :=
  let lines := group_by_lines ocr 15
  let b := itemBounds ocr lines
  match b.1 with
  | none => []
  | some sy => extractLineItems sig ocr (relevantLines ocr lines sy b.2)

/-- Function extract_invoice_data on the OCR token list, parameterised by
the set-iteration-order oracle sig.  The result is None when the epic
keyword gate fails or when the total fallback raises. -/
def extractO (sig : List String → List String) (ocr : List Tok) :
    Option EpicRecord :=
  let allText := pyLower (joinSp (ocr.map Tok.text))
  if !(epicKeywords.any fun k => strIn allText k) then none
  else
    let lines := group_by_lines ocr 15
    let nd := scanNumDate "" (ocr.map Tok.text)
    let invNum := nd.1
    let invDate := if nd.2 = "" then dateFromLines ocr lines else nd.2
    let office0 := officeCustomerId ocr lines
    let office := if office0 = "" then officeFallback ocr lines else office0
    match totalOfLines ocr lines with
    | .error _ => none
    | .ok total0 =>
        let total := if invNum = "5418" then "0.00" else total0
        some ⟨"Epic Dental Lab", invNum, invDate, total, office,
              "Epic Dental Lab", logItems (epicItemLogO sig ocr)⟩

/-- extract_invoice_data with the identity iteration order. -/
def extract_invoice_data (ocr : List Tok) : Option EpicRecord := extractO id ocr

/-! ## exodus_parser.py -/

/-- The record assembled by parse_exodus_invoice; fields that stay Python
None are Options. -/
structure ExodusRecord where
  vendor : String
  vendor_name : String
  invoice_number : Option String
  invoice_date : Option String
  total : Option String
  office_location : Option String
  line_items : List LineItem
  due_date : String
deriving DecidableEq, Repr

/-- ASCII letter. -/
def isAlphaA (c : Char) : Bool := ('A' ≤ c && c ≤ 'Z') || ('a' ≤ c && c ≤ 'z')

/-- Regex word character for the boundary \b. -/
def isWordChar (c : Char) : Bool := isAlphaA c || isDig c || c = '_'

/-- At-position matcher for No\.\s*(\d+) with IGNORECASE; yields group 1. -/
def atNoNum (s : List Char) : Option String :=
  match s with
  | n :: o :: '.' :: rest =>
      if (n = 'N' || n = 'n') && (o = 'O' || o = 'o') then
        let r2 := ws0 rest
        let ds := r2.takeWhile isDig
        if ds.isEmpty then none else some (String.mk ds)
      else none
  | _ => none

/-- Case-insensitive literal for an IGNORECASE pattern piece. -/
def eatCI (lit : List Char) : List Char → Option (List Char)
  | s =>
    match lit, s with
    | [], s => some s
    | c :: cs, x :: xs => if lowC x = lowC c then eatCI cs xs else none
    | _ :: _, [] => none

/-- At-position matcher for Total:\s*\$([0-9,.]+) with IGNORECASE. -/
def atTotalNum (s : List Char) : Option String := do
  let s ← eatCI "total:".data s
  let s := ws0 s
  let s ← match s with | '$' :: r => some r | _ => none
  let ds := s.takeWhile fun c => isDig c || c = ',' || c = '.'
  if ds.isEmpty then none else some (String.mk ds)

/-- At-position matcher for ([A-Za-z\s]+),\s*[A-Z]{2}\s*\d{5}\b; yields the
raw group 1 (the caller strips it).  The greedy pieces are separated by
disjoint classes, so no backtracking arises. -/
def atCity (s : List Char) : Option String :=
  let run := s.takeWhile fun c => isAlphaA c || isWsC c
  if run.isEmpty then none
  else
    match s.drop run.length with
    | ',' :: r2 =>
        let r3 := ws0 r2
        match r3 with
        | a :: b :: r4 =>
            if ('A' ≤ a && a ≤ 'Z') && ('A' ≤ b && b ≤ 'Z') then
              let r5 := ws0 r4
              let ds := r5.take 5
              if ds.length = 5 && ds.all isDig
                 && (match r5.drop 5 with
                     | [] => true
                     | c :: _ => !isWordChar c) then
                some (String.mk run)
              else none
            else none
        | _ => none
    | _ => none

/-- Newline splitting over characters (the model of str.splitlines keeps
to the newline character; the parsed invoices carry no other line breaks). -/
def splitNlChars : List Char → List (List Char)
  | [] => [[]]
  | '\n' :: rest => [] :: splitNlChars rest
  | c :: rest =>
      match splitNlChars rest with
      | [] => [[c]]
      | l :: ls => (c :: l) :: ls

/-- Line splitting on strings. -/
def pySplitLinesNl (s : String) : List String :=
  (splitNlChars s.data).map String.mk

/-- Prefix test for \(?\$\(?[0-9] (re.match on the stripped amount line). -/
def amountLinePrefix (s : String) : Bool :=
  match s.data with
  | '(' :: '$' :: '(' :: c :: _ => isDig c
  | '(' :: '$' :: c :: _ => isDig c
  | '$' :: '(' :: c :: _ => isDig c
  | '$' :: c :: _ => isDig c
  | _ => false

/-- Line-item loop of exodus_parser lines 112-155: walk description/amount
line pairs, stop at a total line, skip parenthesised (discount) amounts,
strip currency decoration from the amount, and emit the pair with the
constant quantity N/A. -/
def exodusItems : List String → List LineItem
  | [] => []
  | [_] => []
  | line :: next :: rest =>
      if strStarts (pyLower line) "total" then []
      else
        let nl := pyTrim next
        if amountLinePrefix nl then
          if nl.data.contains '(' && nl.data.contains ')' then exodusItems rest
          else
            let value := String.mk (nl.data.filter fun c =>
              c ≠ '$' && c ≠ ',' && c ≠ ' ' && c ≠ '(' && c ≠ ')')
            ⟨"N/A", line, "N/A", value, value⟩ :: exodusItems rest
        else exodusItems (next :: rest)

/-- Function parse_exodus_invoice on the extracted page text (the PyMuPDF
text join is outside the model; line splitting is modelled on newline). -/
def parse_exodus_invoice (text : String) : ExodusRecord :=
  let lines := ((pySplitLinesNl text).map pyTrim).filter fun l => l ≠ ""
  let invNum := lines.findSome? fun ln => scanFirst atNoNum ln.data
  let invDate := (scanFirst dateAt text.data).map fun p => String.mk p.1
  let total := scanFirst atTotalNum text.data
  let shipCity : Option String :=
    match lines.findIdx? (fun l => l = "Ship To:") with
    | some i =>
        ((lines.drop (i + 1)).findSome? fun ln => scanFirst atCity ln.data).map pyTrim
    | none => none
  let city : Option String :=
    match shipCity with
    | some c => if c ≠ "" then some c else (scanFirst atCity text.data).map pyTrim
    | none => (scanFirst atCity text.data).map pyTrim
  let office : Option String :=
    match city with
    | some c => if c ≠ "" then some c else none
    | none => none
  let descIdx := lines.findIdx? fun l => l = "Description"
  let startIdx : Nat :=
    match descIdx with
    | some di =>
        match (lines.drop di).findIdx? (fun l => pyLower l = "amount") with
        | some j => di + j + 1
        | none => di + 1
    | none => 0
  let items := exodusItems (lines.drop startIdx)
  let due : String :=
    match invDate with
    | some d =>
        match parseMDY d with
        | some dt => fmtMDY (addDays dt 30)
        | none => ""
    | none => ""
  ⟨"exodus_dental_solutions", "Exodus Dental Solutions", invNum, invDate,
   total, office, items, due⟩

/-! ## vendor_router.py -/

/-- Outcome of one subprocess trial of a vendor parser. -/
inductive POutcome where
  | timeout
  | crash
  | completed (rc : Int) (stdout : String)
deriving DecidableEq, Repr

/-- Environment behaviour of one vendor parser: whether its script file
exists and what running it does.  The 30 second bound is the abstract
boundary between completed and timeout. -/
structure PTrial where
  fileExists : Bool
  outcome : POutcome
deriving DecidableEq, Repr

/-- Iteration order of the VENDOR_PARSERS dictionary. -/
def vendorOrder : List String := ["epic", "patterson", "henry", "exodus", "artisan", "tc"]

/-- Success test of lines 42-57: the per-vendor marker chain, falling back
to the generic JSON shape test (both "vendor" and "invoice_number" in the
stdout) for any vendor whose specific marker is absent. -/
def markerOk (v out : String) : Bool :=
  if v = "epic" && strIn out "Extracted" then true
  else if v = "henry" && (strIn out "Henry schein" || strIn out "Henry Schein") then true
  else if v = "patterson" && strIn out "Patterson" then true
  else if v = "exodus" && strIn out "Exodus" then true
  else if v = "artisan" && strIn out "Artisan" then true
  else if v = "tc" && (strIn out "TC" || strIn out "T.C.") then true
  else strIn out "vendor" && strIn out "invoice_number"

/-- Only the vendor-specific marker of the chain, as the specification
words it (no generic JSON fallback). -/
def vendorSpecificMarker (v out : String) : Bool :=
  if v = "epic" then strIn out "Extracted"
  else if v = "henry" then strIn out "Henry schein" || strIn out "Henry Schein"
  else if v = "patterson" then strIn out "Patterson"
  else if v = "exodus" then strIn out "Exodus"
  else if v = "artisan" then strIn out "Artisan"
  else if v = "tc" then strIn out "TC" || strIn out "T.C."
  else false

/-- Detection loop body of lines 28-62: missing files are skipped; a
timeout or crash is caught at the trial boundary and moves on; a zero
return code with a marker match wins. -/
def detectGo (env : String → PTrial) : List String → Option String
  | [] => none
  | v :: rest =>
      if (env v).fileExists then
        match (env v).outcome with
        | .completed rc out =>
            if rc = 0 && markerOk v out then some v else detectGo env rest
        | _ => detectGo env rest
      else detectGo env rest

/-- Function detect_vendor_from_pdf. -/
def detect_vendor_from_pdf (env : String → PTrial) : Option String :=
  detectGo env vendorOrder

/-- Acceptance predicate of one trial, for the loop characterisation. -/
def detectAccepts (env : String → PTrial) (v : String) : Bool :=
  (env v).fileExists &&
    (match (env v).outcome with
     | .completed rc out => rc = 0 && markerOk v out
     | _ => false)

/-- Function run_parser (lines 66-85): known vendor, existing file, clean
exit; any exception, including the timeout, gives False. -/
def runParser (env : String → PTrial) (v : String) : Bool :=
  vendorOrder.contains v && (env v).fileExists &&
    (match (env v).outcome with
     | .completed rc _ => rc = 0
     | _ => false)

/-- Function main (lines 87-113) after the argument and file checks: the
printed vendor together with the exit code.  A truthy known hint that
run_parser confirms wins outright; otherwise content detection; otherwise
unknown with exit code 1. -/
def routerMain (hint : Option String) (env : String → PTrial) : String × Nat :=
  let fallthrough :=
    match detect_vendor_from_pdf env with
    | some v => (v, 0)
    | none => ("unknown", 1)
  match hint with
  | some v =>
      if v ≠ "" && vendorOrder.contains v && runParser env v then (v, 0)
      else fallthrough
  | none => fallthrough

/-! ## Concrete documents used by the witnesses and counterexamples -/

/-- Build a high-confidence token. -/
def mkTok (t : String) (x y : Int) : Tok := ⟨t, x, y, 90⟩

/-- Classification triple of one document, for stating facts about the
candidate lists of concrete inputs. -/
def epicClassified (ocr : List Tok) : List CLine × List QLine × List PLine :=
  let lines := group_by_lines ocr 15
  let b := itemBounds ocr lines
  match b.1 with
  | none => ([], [], [])
  | some sy =>
      let rel := relevantLines ocr lines sy b.2
      classifyLines rel (productLinesOf rel)

/-- Epic document with two complete product lines of identical text and
price at different vertical positions. -/
def ctoksA : List Tok :=
  [mkTok "Epic" 0 0, mkTok "Dental" 60 0,
   mkTok "Qty" 0 100, mkTok "Product" 60 100,
   mkTok "2.00" 0 200, mkTok "wax" 60 200, mkTok "rim" 120 200,
   mkTok "lower" 180 200, mkTok "$45.00" 240 200,
   mkTok "2.00" 0 300, mkTok "wax" 60 300, mkTok "rim" 120 300,
   mkTok "lower" 180 300, mkTok "$45.00" 240 300,
   mkTok "Total" 0 500, mkTok "$90.00" 60 500]

/-- Epic document with a quantity-only line (quantity 2.00 at height 200)
and a price-only line at height 360, 160 pixels apart with shared words. -/
def ctoksB : List Tok :=
  [mkTok "Epic" 0 0, mkTok "Dental" 60 0,
   mkTok "Qty" 0 100,
   mkTok "2.00" 0 200, mkTok "wax" 60 200, mkTok "rim" 120 200, mkTok "lower" 180 200,
   mkTok "wax" 0 360, mkTok "bite" 60 360, mkTok "rim" 120 360, mkTok "$45.00" 180 360,
   mkTok "Total" 0 500, mkTok "$90.00" 60 500]

/-- Epic document whose invoice number reads 5418 and whose total line
carries 50.00. -/
def ctoksC : List Tok :=
  [mkTok "Epic" 0 0, mkTok "Dental" 60 0, mkTok "5418" 0 30,
   mkTok "Total" 0 500, mkTok "$50.00" 60 500]

/-- Epic document whose first number-like token is a hash followed by
three digits. -/
def ctoksD : List Tok :=
  [mkTok "Epic" 0 0, mkTok "Dental" 60 0, mkTok "#123" 0 30,
   mkTok "Total" 0 500, mkTok "$50.00" 60 500]

/-- Two tokens on one visual row whose input order reverses their
horizontal order. -/
def ctoksE : List Tok := [⟨"a", 500, 10, 90⟩, ⟨"b", 10, 10, 90⟩]

/-- Exodus page text with one description/amount pair. -/
def exodusText1 : String :=
  "Invoice No. 1234\nDescription\nAmount\nCrown Item\n$50.00\nTotal: $50.00"

/-- Router environment where the epic parser exits cleanly with a JSON
dump that lacks the word Extracted. -/
def env0 : String → PTrial := fun v =>
  if v = "epic" then ⟨true, .completed 0 "json vendor invoice_number dump"⟩
  else ⟨false, .crash⟩

/-- Router environment with a crashing first ruleset, a hanging second
one and a succeeding third one. -/
def env1 : String → PTrial := fun v =>
  if v = "epic" then ⟨true, .crash⟩
  else if v = "patterson" then ⟨true, .timeout⟩
  else if v = "henry" then ⟨true, .completed 0 "Henry Schein invoice parsed"⟩
  else ⟨false, .crash⟩

/-- Wellformedness of an emitted line item: the total copies the unit
price and both numeric fields parse as decimals. -/
def GoodItem (it : LineItem) : Prop :=
  it.line_item_total = it.unit_price ∧ decimalStr it.Quantity = true
    ∧ decimalStr it.unit_price = true

/-- Modelled from the spec: the invoice-number validator as the
specification words it, a numeric string of length at least four, the
optional hash prefix stripped before measuring, with no embedded
separators. -/
def specInvNumValid (w : String) : Bool :=
  let s := remHash w
  !s.data.isEmpty && s.data.all isDig && 4 ≤ s.length
    && !(s.data.contains '-' || s.data.contains '.' || s.data.contains '/')

/-- The record extracted from ctoksA. -/
def recA : EpicRecord :=
  ⟨"Epic Dental Lab", "", "", "90.00", "", "Epic Dental Lab",
   [⟨"wax rim lower", "Lower wax bite rim", "2.00", "45.00", "45.00"⟩,
    ⟨"wax rim lower", "Lower wax bite rim", "2.00", "45.00", "45.00"⟩]⟩

/-- The record extracted from ctoksC. -/
def recC : EpicRecord :=
  ⟨"Epic Dental Lab", "5418", "", "0.00", "", "Epic Dental Lab", []⟩

/-- The record extracted from ctoksD. -/
def recD : EpicRecord :=
  ⟨"Epic Dental Lab", "123", "", "50.00", "", "Epic Dental Lab", []⟩

/-! ## Helper lemmas: characters, decimals and scanners -/

theorem isDig_not_ws {c : Char} (h : isDig c = true) : isWsC c = false := by
  unfold isWsC
  simp only [Bool.or_eq_false_iff, decide_eq_false_iff_not]
  and_intros <;> rintro rfl <;> simp [isDig] at h

theorem isDig_ne_comma {c : Char} (h : isDig c = true) : c ≠ ',' := by
  rintro rfl; simp [isDig] at h

theorem dropWhile_eq_self_of {p : Char → Bool} {l : List Char}
    (h : ∀ c ∈ l, p c = false) : l.dropWhile p = l := by
  cases l with
  | nil => rfl
  | cons a l =>
      rw [List.dropWhile_cons, h a (List.mem_cons_self a l)]
      simp

theorem trimChars_eq_self {l : List Char} (h : ∀ c ∈ l, isWsC c = false) :
    trimChars l = l := by
  unfold trimChars
  rw [dropWhile_eq_self_of h, dropWhile_eq_self_of, List.reverse_reverse]
  intro c hc
  exact h c (List.mem_reverse.mp hc)

theorem takeWhile_digits_append {ds rest : List Char}
    (h : ∀ c ∈ ds, isDig c = true)
    (hrest : ∀ c, rest.head? = some c → isDig c = false) :
    (ds ++ rest).takeWhile isDig = ds := by
  induction ds with
  | nil =>
      cases rest with
      | nil => rfl
      | cons c r => simp [List.takeWhile_cons, hrest c rfl]
  | cons a ds ih =>
      have ha : isDig a = true := h a (List.mem_cons_self a ds)
      simp only [List.cons_append, List.takeWhile_cons, ha, if_true]
      rw [ih fun c hc => h c (List.mem_cons_of_mem a hc)]

theorem pyFloatChars_nonneg {t : List Char} {q : ℚ}
    (h : pyFloatChars t = some q) : 0 ≤ q := by
  simp only [pyFloatChars] at h
  split at h
  · exact absurd h (by simp)
  · split at h
    · cases h; positivity
    · split at h
      · cases h; positivity
      · exact absurd h (by simp)
    · exact absurd h (by simp)

theorem pyFloat?_nonneg {s : String} {q : ℚ} (h : pyFloat? s = some q) :
    0 ≤ q := pyFloatChars_nonneg h

theorem decimalStr_shape {ds : List Char} {d1 d2 : Char}
    (hne : ds ≠ []) (hds : ∀ c ∈ ds, isDig c = true)
    (h1 : isDig d1 = true) (h2 : isDig d2 = true) :
    decimalStr (String.mk (ds ++ ['.', d1, d2])) = true := by
  have hmk : pyFloat? (String.mk (ds ++ ['.', d1, d2]))
      = pyFloatChars (ds ++ ['.', d1, d2]) := rfl
  unfold decimalStr
  rw [hmk]
  have htrim : trimChars (ds ++ ['.', d1, d2]) = ds ++ ['.', d1, d2] := by
    apply trimChars_eq_self
    intro c hc
    rcases List.mem_append.mp hc with hc | hc
    · exact isDig_not_ws (hds c hc)
    · rcases hc with _ | ⟨_, hc⟩
      · decide
      · rcases hc with _ | ⟨_, hc⟩
        · exact isDig_not_ws h1
        · rcases hc with _ | ⟨_, hc⟩
          · exact isDig_not_ws h2
          · cases hc
  have htake : (ds ++ ['.', d1, d2]).takeWhile isDig = ds := by
    apply takeWhile_digits_append hds
    intro c hc
    cases hc; decide
  have hemp : ds.isEmpty = false := by
    cases ds with
    | nil => exact absurd rfl hne
    | cons a l => rfl
  have hdrop : (ds ++ ['.', d1, d2]).drop ds.length = ['.', d1, d2] :=
    List.drop_left ds ['.', d1, d2]
  simp only [pyFloatChars, htrim, htake, hemp, hdrop, Bool.false_eq_true,
    if_false, List.all_cons, List.all_nil, h1, h2, Bool.and_true, Bool.and_self,
    if_true, Option.isSome_some]

theorem numSepTwo_shape {seps s : List Char} {g r : List Char}
    (h : numSepTwoSplit seps s = some (g, r)) :
    ∃ ds sep d1 d2, g = ds ++ [sep, d1, d2] ∧ ds ≠ [] ∧
      (∀ c ∈ ds, isDig c = true) ∧ sep ∈ seps ∧ isDig d1 = true ∧ isDig d2 = true := by
  simp only [numSepTwoSplit] at h
  split at h
  · exact absurd h (by simp)
  · rename_i hne
    split at h
    · rename_i sep d1 d2 rest heq
      split at h
      · rename_i hcond
        cases h
        refine ⟨s.takeWhile isDig, sep, d1, d2, rfl, ?_, ?_, ?_, ?_, ?_⟩
        · intro hemp
          rw [hemp] at hne
          simp at hne
        · intro c hc
          exact List.mem_takeWhile_imp hc
        · simp only [Bool.and_eq_true] at hcond
          exact (List.elem_iff.mp hcond.1.1)
        · simp only [Bool.and_eq_true] at hcond
          exact hcond.1.2
        · simp only [Bool.and_eq_true] at hcond
          exact hcond.2
      · exact absurd h (by simp)
    · exact absurd h (by simp)

theorem map_commaDot_digits {l : List Char} (h : ∀ c ∈ l, isDig c = true) :
    l.map (fun c => if c = ',' then '.' else c) = l := by
  induction l with
  | nil => rfl
  | cons a t ih =>
      rw [List.map_cons, if_neg (isDig_ne_comma (h a (List.mem_cons_self a t))),
        ih fun c hc => h c (List.mem_cons_of_mem a hc)]

theorem commaDot_shape {ds : List Char} {sep d1 d2 : Char}
    (hds : ∀ c ∈ ds, isDig c = true) (hsep : sep = ',' ∨ sep = '.')
    (h1 : isDig d1 = true) (h2 : isDig d2 = true) :
    commaDot (String.mk (ds ++ [sep, d1, d2])) = String.mk (ds ++ ['.', d1, d2]) := by
  unfold commaDot replChar
  congr 1
  show (ds ++ [sep, d1, d2]).map (fun c => if c = ',' then '.' else c)
      = ds ++ ['.', d1, d2]
  rw [List.map_append, map_commaDot_digits hds]
  congr 1
  have hd1 := isDig_ne_comma h1
  have hd2 := isDig_ne_comma h2
  rcases hsep with rfl | rfl
  · simp [hd1, hd2]
  · simp [hd1, hd2]

theorem findSome?_exists {α β : Type} {f : α → Option β} {l : List α} {b : β}
    (h : l.findSome? f = some b) : ∃ a, a ∈ l ∧ f a = some b := by
  induction l with
  | nil => rw [List.findSome?_nil] at h; exact absurd h (by simp)
  | cons x xs ih =>
      rw [List.findSome?_cons] at h
      split at h
      · rename_i v heq
        cases h
        exact ⟨x, List.mem_cons_self x xs, heq⟩
      · obtain ⟨a, ha, hfa⟩ := ih h
        exact ⟨a, List.mem_cons_of_mem x ha, hfa⟩

theorem mem_of_pair_list {sep : Char} (hsep : sep ∈ [',', '.']) :
    sep = ',' ∨ sep = '.' := by
  rcases List.mem_cons.mp hsep with h | h
  · exact Or.inl h
  · rcases List.mem_cons.mp h with h | h
    · exact Or.inr h
    · cases h

theorem qtyPrefix_decimal {s g : String} (h : qtyPrefixGroup s = some g) :
    decimalStr (commaDot g) = true := by
  unfold qtyPrefixGroup at h
  cases hsplit : numSepTwoSplit [',', '.'] s.data with
  | none => rw [hsplit] at h; exact absurd h (by simp)
  | some p =>
      obtain ⟨g0, r0⟩ := p
      rw [hsplit] at h
      simp only [Option.map_some'] at h
      obtain ⟨ds, sep, d1, d2, hg, hne, hds, hsep, h1, h2⟩ := numSepTwo_shape hsplit
      cases h
      rw [hg, commaDot_shape hds (mem_of_pair_list hsep) h1 h2]
      exact decimalStr_shape hne hds h1 h2

theorem scanFirst_some {α : Type} {f : List Char → Option α} {s : List Char} {a : α}
    (h : scanFirst f s = some a) : ∃ t, f t = some a := by
  induction s with
  | nil => exact ⟨[], h⟩
  | cons c cs ih =>
      unfold scanFirst at h
      split at h
      · rename_i heq
        cases h
        exact ⟨c :: cs, heq⟩
      · exact ih h

theorem dollarGroupAt_decimal {s : List Char} {g : String}
    (h : dollarGroupAt s = some g) : decimalStr g = true := by
  unfold dollarGroupAt at h
  split at h
  · rename_i rest
    cases hsplit : numSepTwoSplit ['.'] rest with
    | none => rw [hsplit] at h; exact absurd h (by simp)
    | some p =>
        obtain ⟨g0, r0⟩ := p
        rw [hsplit] at h
        simp only [Option.map_some'] at h
        obtain ⟨ds, sep, d1, d2, hg, hne, hds, hsep, h1, h2⟩ := numSepTwo_shape hsplit
        cases h
        rw [hg]
        have hsep2 : sep = '.' := by
          rcases List.mem_cons.mp hsep with h | h
          · exact h
          · cases h
        subst hsep2
        exact decimalStr_shape hne hds h1 h2
  · exact absurd h (by simp)

theorem searchDollar_decimal {s : String} {g : String}
    (h : searchDollarGroup s = some g) : decimalStr g = true := by
  obtain ⟨t, ht⟩ := scanFirst_some h
  exact dollarGroupAt_decimal ht

theorem nearbyQuantity_decimal (rel : List RelLine) (y : Int) :
    decimalStr (nearbyQuantity rel y) = true := by
  unfold nearbyQuantity
  split
  · rename_i q hq
    obtain ⟨n, _, hfn⟩ := findSome?_exists hq
    split at hfn
    · cases hmap : qtyPrefixGroup (pyTrim n.lt) with
      | none => rw [hmap] at hfn; exact absurd hfn (by simp)
      | some g =>
          rw [hmap] at hfn
          simp only [Option.map_some'] at hfn
          cases hfn
          exact qtyPrefix_decimal hmap
    · exact absurd hfn (by simp)
  · decide

/-! ## Helper lemmas: lists, permutations and the emission log -/

theorem perm_any_eq {l l2 : List String} (h : l.Perm l2) (p : String → Bool) :
    l.any p = l2.any p := by
  induction h with
  | nil => rfl
  | cons x _ ih => simp [List.any_cons, ih]
  | swap x y l =>
      simp only [List.any_cons]
      cases p x <;> cases p y <;> simp
  | trans _ _ ih1 ih2 => exact ih1.trans ih2

theorem contains_false_not_mem {l : List String} {a : String}
    (h : l.contains a = false) : a ∉ l := by
  intro hm
  have he : l.elem a = true := List.elem_iff.mpr hm
  rw [show l.contains a = l.elem a from rfl, he] at h
  cases h

theorem nodup_concat_fresh {l : ItemLog} {k : String} {it : LineItem}
    (h : (logKeys l).Nodup) (hk : (logKeys l).contains k = false) :
    (logKeys (l ++ [(k, it)])).Nodup := by
  unfold logKeys at *
  rw [List.map_append, List.nodup_append]
  refine ⟨h, List.nodup_singleton _, ?_⟩
  intro x hx hx2
  simp only [List.map_cons, List.map_nil, List.mem_singleton] at hx2
  subst hx2
  exact contains_false_not_mem hk hx

theorem foldl_log_pres {β : Type} (f : ItemLog → β → ItemLog) (xs : List β)
    (P : LineItem → Prop)
    (hf : ∀ log x, x ∈ xs → f log x = log ∨
        ∃ k it, (logKeys log).contains k = false ∧ P it ∧ f log x = log ++ [(k, it)]) :
    ∀ log : ItemLog, (logKeys log).Nodup → (∀ e ∈ log, P e.2) →
      (logKeys (xs.foldl f log)).Nodup ∧ ∀ e ∈ xs.foldl f log, P e.2 := by
  induction xs with
  | nil => exact fun log hn hp => ⟨hn, hp⟩
  | cons x xs ih =>
      intro log hn hp
      rw [List.foldl_cons]
      rcases hf log x (List.mem_cons_self x xs) with heq | ⟨k, it, hk, hP, heq⟩
      · rw [heq]
        exact ih (fun log2 x2 hx2 => hf log2 x2 (List.mem_cons_of_mem x hx2)) log hn hp
      · rw [heq]
        apply ih (fun log2 x2 hx2 => hf log2 x2 (List.mem_cons_of_mem x hx2))
        · exact nodup_concat_fresh hn hk
        · intro e he
          rcases List.mem_append.mp he with he | he
          · exact hp e he
          · rcases List.mem_singleton.mp he with rfl
            exact hP

theorem passCompleteStep_cases (ocr : List Tok) (rel : List RelLine)
    (log : ItemLog) (c : CLine) :
    passCompleteStep ocr rel log c = log ∨
    ∃ k it, (logKeys log).contains k = false ∧
      it.Quantity = c.qty ∧ it.unit_price = c.price ∧
      it.line_item_total = c.price ∧
      passCompleteStep ocr rel log c = log ++ [(k, it)] := by
  simp only [passCompleteStep]
  split
  all_goals
    split
    · exact Or.inl rfl
    split
    · exact Or.inl rfl
    split
    · exact Or.inl rfl
    rename_i hcont
    right
    exact ⟨_, _, by simpa using hcont, rfl, rfl, rfl, rfl⟩

theorem passPairStep_cases (ocr : List Tok) (ps : List PLine) (log : ItemLog)
    (q : QLine) :
    passPairStep ocr ps log q = log ∨
    ∃ p k it, findBestMatch q.y q.lt ps = some p ∧
      (logKeys log).contains k = false ∧
      it.Quantity = p.qty ∧ it.unit_price = p.price ∧
      it.line_item_total = p.price ∧
      passPairStep ocr ps log q = log ++ [(k, it)] := by
  simp only [passPairStep]
  split
  · exact Or.inl rfl
  · rename_i p hp
    split
    · exact Or.inl rfl
    split
    · exact Or.inl rfl
    split
    · exact Or.inl rfl
    rename_i hcont
    right
    exact ⟨p, _, _, hp, by simpa using hcont, rfl, rfl, rfl, rfl⟩

theorem fallbackCompleteBranch_cases (ocr : List Tok) (rel : List RelLine)
    (log : ItemLog) (r : RelLine) (price q : String) :
    fallbackCompleteBranch ocr rel log r price q = log ∨
    ∃ k it, (logKeys log).contains k = false ∧
      it.Quantity = commaDot q ∧ it.unit_price = price ∧
      it.line_item_total = price ∧
      fallbackCompleteBranch ocr rel log r price q = log ++ [(k, it)] := by
  simp only [fallbackCompleteBranch]
  split
  all_goals
    split
    · exact Or.inl rfl
    split
    · exact Or.inl rfl
    rename_i hcont
    right
    exact ⟨_, _, by simpa using hcont, rfl, rfl, rfl, rfl⟩

theorem fallbackBorrowBranch_cases (ocr : List Tok) (rel : List RelLine)
    (log : ItemLog) (r : RelLine) :
    fallbackBorrowBranch ocr rel log r = log ∨
    ∃ k it, (logKeys log).contains k = false ∧ GoodItem it ∧
      fallbackBorrowBranch ocr rel log r = log ++ [(k, it)] := by
  simp only [fallbackBorrowBranch]
  split
  · exact Or.inl rfl
  · rename_i price hfind
    split
    · exact Or.inl rfl
    split
    · exact Or.inl rfl
    split
    · exact Or.inl rfl
    split
    · exact Or.inl rfl
    split
    · exact Or.inl rfl
    split
    · exact Or.inl rfl
    rename_i hcont
    right
    refine ⟨_, _, by simpa using hcont, ?_, rfl⟩
    have hq1 : decimalStr "1" = true := by decide
    refine ⟨rfl, hq1, ?_⟩
    obtain ⟨n, _, hn⟩ := findSome?_exists hfind
    exact searchDollar_decimal hn

theorem passFallbackStep_cases (sig : List String → List String)
    (ocr : List Tok) (rel : List RelLine) (pl : List RelLine) (log : ItemLog)
    (r : RelLine) :
    passFallbackStep sig ocr rel pl log r = log ∨
    ∃ k it, (logKeys log).contains k = false ∧ GoodItem it ∧
      passFallbackStep sig ocr rel pl log r = log ++ [(k, it)] := by
  simp only [passFallbackStep]
  split
  · exact Or.inl rfl
  split
  · exact Or.inl rfl
  split
  · rename_i price qq hdollar hqty
    rcases fallbackCompleteBranch_cases ocr rel log r price qq with heq |
      ⟨k, it, hk, hq, hu, ht, heq⟩
    · exact Or.inl heq
    · right
      refine ⟨k, it, hk, ⟨?_, ?_, ?_⟩, heq⟩
      · rw [ht, hu]
      · rw [hq]; exact qtyPrefix_decimal hqty
      · rw [hu]; exact searchDollar_decimal hdollar
  all_goals exact fallbackBorrowBranch_cases ocr rel log r

theorem passRemainingStep_cases (sig : List String → List String)
    (ocr : List Tok) (rel : List RelLine) (log : ItemLog) (p : PLine) :
    passRemainingStep sig ocr rel log p = log ∨
    ∃ k it, (logKeys log).contains k = false ∧
      it.Quantity = p.qty ∧ it.unit_price = p.price ∧
      it.line_item_total = p.price ∧
      passRemainingStep sig ocr rel log p = log ++ [(k, it)] := by
  simp only [passRemainingStep]
  split
  · exact Or.inl rfl
  split
  all_goals
    split
    · exact Or.inl rfl
    split
    · exact Or.inl rfl
    split
    · exact Or.inl rfl
    rename_i hcont _
    right
    exact ⟨_, _, by simpa using hcont, rfl, rfl, rfl, rfl⟩

theorem passLastStep_cases (sig : List String → List String)
    (ocr : List Tok) (rel : List RelLine) (log : ItemLog) (r : RelLine) :
    passLastStep sig ocr rel log r = log ∨
    ∃ k it, (logKeys log).contains k = false ∧ GoodItem it ∧
      passLastStep sig ocr rel log r = log ++ [(k, it)] := by
  simp only [passLastStep]
  split
  · exact Or.inl rfl
  split
  · exact Or.inl rfl
  · rename_i price hdollar
    split
    · exact Or.inl rfl
    split
    · exact Or.inl rfl
    split
    · exact Or.inl rfl
    split
    · exact Or.inl rfl
    rename_i hcont
    right
    refine ⟨_, _, by simpa using hcont, ?_, rfl⟩
    refine ⟨rfl, ?_, ?_⟩
    · exact nearbyQuantity_decimal rel r.y
    · exact searchDollar_decimal hdollar

theorem bestStep_cases (qY : Int) (qlt : String) (acc : Option (PLine × Nat))
    (p : PLine) :
    bestStep qY qlt acc p = acc ∨ ∃ d, bestStep qY qlt acc p = some (p, d) := by
  simp only [bestStep]
  split
  · split
    · exact Or.inr ⟨_, rfl⟩
    · exact Or.inl rfl
  · exact Or.inl rfl

theorem foldl_bestStep_mem (qY : Int) (qlt : String) (ps : List PLine) :
    ∀ acc : Option (PLine × Nat),
      ps.foldl (bestStep qY qlt) acc = acc ∨
      ∃ x, x ∈ ps ∧ ∃ d, ps.foldl (bestStep qY qlt) acc = some (x, d) := by
  induction ps with
  | nil => exact fun acc => Or.inl rfl
  | cons p ps ih =>
      intro acc
      rw [List.foldl_cons]
      rcases ih (bestStep qY qlt acc p) with heq | ⟨x, hx, d, heq⟩
      · rw [heq]
        rcases bestStep_cases qY qlt acc p with h2 | ⟨d, h2⟩
        · exact Or.inl h2
        · exact Or.inr ⟨p, List.mem_cons_self p ps, d, h2⟩
      · exact Or.inr ⟨x, List.mem_cons_of_mem p hx, d, heq⟩

theorem findBestMatch_mem {qY : Int} {qlt : String} {ps : List PLine}
    {p : PLine} (h : findBestMatch qY qlt ps = some p) : p ∈ ps := by
  unfold findBestMatch at h
  rcases foldl_bestStep_mem qY qlt ps none with heq | ⟨x, hx, d, heq⟩
  · rw [heq] at h
    exact absurd h (by simp)
  · rw [heq] at h
    simp only [Option.map_some'] at h
    cases h
    exact hx

theorem classify_shapes (rel : List RelLine) (pl : List RelLine) :
    (∀ c ∈ (classifyLines rel pl).1, decimalStr c.price = true ∧ decimalStr c.qty = true) ∧
    (∀ p ∈ (classifyLines rel pl).2.2, decimalStr p.price = true ∧ decimalStr p.qty = true) := by
  unfold classifyLines
  suffices h : ∀ acc : List CLine × List QLine × List PLine,
      (∀ c ∈ acc.1, decimalStr c.price = true ∧ decimalStr c.qty = true) →
      (∀ p ∈ acc.2.2, decimalStr p.price = true ∧ decimalStr p.qty = true) →
      (∀ c ∈ (pl.foldl (classifyStep rel) acc).1,
          decimalStr c.price = true ∧ decimalStr c.qty = true) ∧
      (∀ p ∈ (pl.foldl (classifyStep rel) acc).2.2,
          decimalStr p.price = true ∧ decimalStr p.qty = true) by
    exact h ([], [], []) (by simp) (by simp)
  induction pl with
  | nil => exact fun acc h1 h2 => ⟨h1, h2⟩
  | cons r pl ih =>
      intro acc h1 h2
      rw [List.foldl_cons]
      apply ih
      · intro c hc
        simp only [classifyStep] at hc
        split at hc
        · rename_i price q hd hq
          rcases List.mem_append.mp hc with hc | hc
          · exact h1 c hc
          · rcases List.mem_singleton.mp hc with rfl
            exact ⟨searchDollar_decimal hd, qtyPrefix_decimal hq⟩
        · exact h1 c hc
        · exact h1 c hc
        · exact h1 c hc
      · intro p hp
        simp only [classifyStep] at hp
        split at hp
        · exact h2 p hp
        · exact h2 p hp
        · rename_i price hd hq
          rcases List.mem_append.mp hp with hp | hp
          · exact h2 p hp
          · rcases List.mem_singleton.mp hp with rfl
            exact ⟨searchDollar_decimal hd, nearbyQuantity_decimal rel r.y⟩
        · exact h2 p hp

theorem extractLineItems_good (sig : List String → List String)
    (ocr : List Tok) (rel : List RelLine) :
    (logKeys (extractLineItems sig ocr rel)).Nodup ∧
    ∀ e ∈ extractLineItems sig ocr rel, GoodItem e.2 := by
  unfold extractLineItems passComplete passPair passFallback passRemaining passLast
  obtain ⟨hc, hp⟩ := classify_shapes rel (productLinesOf rel)
  have g1 := foldl_log_pres (passCompleteStep ocr rel)
    (classifyLines rel (productLinesOf rel)).1 GoodItem
    (fun log x hx => by
      rcases passCompleteStep_cases ocr rel log x with heq | ⟨k, it, hk, hq, hu, ht, heq⟩
      · exact Or.inl heq
      · refine Or.inr ⟨k, it, hk, ⟨?_, ?_, ?_⟩, heq⟩
        · rw [ht, hu]
        · rw [hq]; exact (hc x hx).2
        · rw [hu]; exact (hc x hx).1)
    [] List.nodup_nil (by simp)
  have g2 := foldl_log_pres
    (passPairStep ocr (classifyLines rel (productLinesOf rel)).2.2)
    (classifyLines rel (productLinesOf rel)).2.1 GoodItem
    (fun log x hx => by
      rcases passPairStep_cases ocr (classifyLines rel (productLinesOf rel)).2.2 log x with
        heq | ⟨p, k, it, hbm, hk, hq, hu, ht, heq⟩
      · exact Or.inl heq
      · have hpm := hp p (findBestMatch_mem hbm)
        refine Or.inr ⟨k, it, hk, ⟨?_, ?_, ?_⟩, heq⟩
        · rw [ht, hu]
        · rw [hq]; exact hpm.2
        · rw [hu]; exact hpm.1)
    _ g1.1 g1.2
  have g3 := foldl_log_pres (passFallbackStep sig ocr rel (productLinesOf rel))
    (productLinesOf rel) GoodItem
    (fun log x _ => passFallbackStep_cases sig ocr rel (productLinesOf rel) log x)
    _ g2.1 g2.2
  have g4 := foldl_log_pres (passRemainingStep sig ocr rel)
    (classifyLines rel (productLinesOf rel)).2.2 GoodItem
    (fun log x hx => by
      rcases passRemainingStep_cases sig ocr rel log x with
        heq | ⟨k, it, hk, hq, hu, ht, heq⟩
      · exact Or.inl heq
      · have hpm := hp x hx
        refine Or.inr ⟨k, it, hk, ⟨?_, ?_, ?_⟩, heq⟩
        · rw [ht, hu]
        · rw [hq]; exact hpm.2
        · rw [hu]; exact hpm.1)
    _ g3.1 g3.2
  have g5 := foldl_log_pres (passLastStep sig ocr rel) rel GoodItem
    (fun log x _ => passLastStep_cases sig ocr rel log x)
    _ g4.1 g4.2
  exact g5

theorem epicItemLog_good (sig : List String → List String) (ocr : List Tok) :
    (logKeys (epicItemLogO sig ocr)).Nodup ∧
    ∀ e ∈ epicItemLogO sig ocr, GoodItem e.2 := by
  cases hb : (itemBounds ocr (group_by_lines ocr 15)).1 with
  | none =>
      simp only [epicItemLogO, hb]
      exact ⟨List.nodup_nil, by simp⟩
  | some sy =>
      simp only [epicItemLogO, hb]
      exact extractLineItems_good sig ocr _

/-! ## Helper lemmas: the assembled record, fields and loops -/

theorem extract_some_fields {ocr : List Tok} {r : EpicRecord}
    (h : extract_invoice_data ocr = some r) :
    r.line_items = logItems (epicItemLogO id ocr) ∧
    r.invoice_number = (scanNumDate "" (ocr.map Tok.text)).1 ∧
    ∃ t0, totalOfLines ocr (group_by_lines ocr 15) = Except.ok t0 ∧
      r.total = (if (scanNumDate "" (ocr.map Tok.text)).1 = "5418" then "0.00" else t0) := by
  simp only [extract_invoice_data, extractO] at h
  split at h
  · exact absurd h (by simp)
  · split at h
    · exact absurd h (by simp)
    · rename_i t0 heq
      cases h
      exact ⟨rfl, rfl, t0, heq, rfl⟩

theorem scanNumDate_fst (date : String) (ws : List String) :
    (scanNumDate date ws).1 =
      (match ((ws.map pyTrim).filter fun w => w ≠ "").find? invNumValid with
       | some w => remHash w
       | none => "") := by
  induction ws generalizing date with
  | nil => rfl
  | cons w0 ws ih =>
      simp only [scanNumDate, List.map_cons, List.filter_cons]
      by_cases hw : pyTrim w0 = ""
      · rw [if_pos hw, hw]
        have hdec : (decide ¬("" : String) = "") = false := by simp
        simp only [ne_eq, hdec, Bool.false_eq_true, if_false]
        exact ih date
      · rw [if_neg hw]
        have : (decide ¬pyTrim w0 = "") = true := by
          simp [hw]
        rw [this]
        simp only [if_true]
        by_cases hv : invNumValid (pyTrim w0) = true
        · rw [if_pos hv, List.find?_cons, hv]
        · rw [if_neg (by simpa using hv), List.find?_cons,
            show invNumValid (pyTrim w0) = false by simpa using hv]
          by_cases hd : datePrefix (pyTrim w0) = true
          · rw [if_pos hd]; exact ih (pyTrim w0)
          · rw [if_neg (by simpa using hd)]; exact ih date

theorem detectGo_eq_find (env : String → PTrial) (vs : List String) :
    detectGo env vs = vs.find? (detectAccepts env) := by
  induction vs with
  | nil => rfl
  | cons v vs ih =>
      cases ho : (env v).outcome with
      | timeout => simp [detectGo, List.find?_cons, detectAccepts, ho, ih]
      | crash => simp [detectGo, List.find?_cons, detectAccepts, ho, ih]
      | completed rc out =>
          by_cases hf : (env v).fileExists = true
          · by_cases hb : (decide (rc = 0) && markerOk v out) = true
            · simp [detectGo, List.find?_cons, detectAccepts, ho, hf, hb]
            · have hb2 : (decide (rc = 0) && markerOk v out) = false := by
                simpa using hb
              simp [detectGo, List.find?_cons, detectAccepts, ho, hf, hb2, ih]
          · have hf2 : (env v).fileExists = false := by simpa using hf
            simp [detectGo, List.find?_cons, detectAccepts, ho, hf2, ih]

theorem findSome?_map_eq {α β γ : Type} (f : α → Option β) (g : β → γ) :
    ∀ l : List α, (l.findSome? fun a => (f a).map g) = (l.findSome? f).map g := by
  intro l
  induction l with
  | nil => simp [List.findSome?_nil]
  | cons x xs ih =>
      rw [List.findSome?_cons, List.findSome?_cons]
      cases hfx : f x with
      | none => simpa [hfx] using ih
      | some b => simp [hfx]

theorem exodusItems_fields :
    ∀ ls : List String, ∀ it ∈ exodusItems ls,
      it.Quantity = "N/A" ∧ it.product_number = "N/A" ∧
      it.line_item_total = it.unit_price := by
  intro ls
  induction ls using exodusItems.induct with
  | case1 => simp [exodusItems]
  | case2 => intro it hit; simp [exodusItems] at hit
  | case3 line next rest htot =>
      intro it hit
      simp only [exodusItems, if_pos htot] at hit
      cases hit
  | case4 line next rest htot nl hnl hpar ih =>
      intro it hit
      simp only [exodusItems, if_neg htot, hnl, if_pos hpar] at hit
      exact ih it hit
  | case5 line next rest htot nl hnl hpar ih =>
      intro it hit
      simp only [exodusItems, if_neg htot, hnl, if_neg hpar] at hit
      rcases List.mem_cons.mp hit with rfl | hit
      · exact ⟨rfl, rfl, rfl⟩
      · exact ih it hit
  | case6 line next rest htot nl hnl ih =>
      intro it hit
      simp only [exodusItems, if_neg htot, hnl] at hit
      exact ih it hit

theorem insertDescStable_perm {α : Type} (key : α → Int) (x : α) (l : List α) :
    (insertDescStable key x l).Perm (x :: l) := by
  induction l with
  | nil => exact List.Perm.refl _
  | cons y l ih =>
      simp only [insertDescStable]
      split
      · exact (ih.cons y).trans (List.Perm.swap x y l)
      · exact List.Perm.refl _

theorem pySortDesc_perm {α : Type} (key : α → Int) (l : List α) :
    (pySortDesc key l).Perm l := by
  unfold pySortDesc
  suffices h : ∀ acc : List α,
      (l.foldl (fun a x => insertDescStable key x a) acc).Perm (l ++ acc) by
    simpa using h []
  induction l with
  | nil => intro acc; simp
  | cons x l ih =>
      intro acc
      rw [List.foldl_cons]
      refine (ih (insertDescStable key x acc)).trans ?_
      refine (List.Perm.append_left l (insertDescStable_perm key x acc)).trans ?_
      exact List.perm_middle

theorem insertDescStable_sorted {α : Type} (key : α → Int) (x : α)
    {l : List α} (h : l.Pairwise fun a b => key b ≤ key a) :
    (insertDescStable key x l).Pairwise fun a b => key b ≤ key a := by
  induction l with
  | nil => simp [insertDescStable]
  | cons y l ih =>
      rw [List.pairwise_cons] at h
      simp only [insertDescStable]
      split
      · rename_i hxy
        refine List.Pairwise.cons ?_ (ih h.2)
        intro z hz
        have hz2 : z ∈ x :: l := ((insertDescStable_perm key x l).mem_iff).mp hz
        rcases List.mem_cons.mp hz2 with rfl | hz2
        · exact hxy
        · exact h.1 z hz2
      · rename_i hxy
        refine List.Pairwise.cons ?_ (List.Pairwise.cons h.1 h.2)
        intro z hz
        rcases List.mem_cons.mp hz with rfl | hz
        · exact le_of_lt (lt_of_not_le hxy)
        · exact le_trans (h.1 z hz) (le_of_lt (lt_of_not_le hxy))

theorem pySortDesc_sorted {α : Type} (key : α → Int) (l : List α) :
    (pySortDesc key l).Pairwise fun a b => key b ≤ key a := by
  unfold pySortDesc
  suffices h : ∀ acc : List α, (acc.Pairwise fun a b => key b ≤ key a) →
      (l.foldl (fun a x => insertDescStable key x a) acc).Pairwise
        fun a b => key b ≤ key a by
    exact h [] (by simp)
  induction l with
  | nil => exact fun acc ha => ha
  | cons x l ih =>
      intro acc ha
      rw [List.foldl_cons]
      exact ih _ (insertDescStable_sorted key x ha)

theorem pySortDesc_head_max {α : Type} (key : α → Int) (l : List α)
    (hne : l ≠ []) :
    ∃ x, x ∈ l ∧ (pySortDesc key l).head? = some x ∧ ∀ z ∈ l, key z ≤ key x := by
  have hperm := pySortDesc_perm key l
  have hsorted := pySortDesc_sorted key l
  cases hs : pySortDesc key l with
  | nil =>
      rw [hs] at hperm
      exact absurd hperm.symm.eq_nil hne
  | cons x xs =>
      rw [hs] at hperm hsorted
      rw [List.pairwise_cons] at hsorted
      refine ⟨x, hperm.mem_iff.mp (List.mem_cons_self x xs), rfl, ?_⟩
      intro z hz
      have hz2 : z ∈ x :: xs := hperm.mem_iff.mpr hz
      rcases List.mem_cons.mp hz2 with rfl | hz2
      · exact le_refl _
      · exact hsorted.1 z hz2

/-! ## Helper lemmas: set-iteration-order invariance -/

theorem passFallbackStep_sig2 (sig1 sig2 : List String → List String)
    (h1 : ∀ l, (sig1 l).Perm l) (h2 : ∀ l, (sig2 l).Perm l)
    (ocr : List Tok) (rel : List RelLine) (pl : List RelLine) (log : ItemLog)
    (r : RelLine) :
    passFallbackStep sig1 ocr rel pl log r = passFallbackStep sig2 ocr rel pl log r := by
  simp only [passFallbackStep]
  rw [perm_any_eq (h1 (logKeys log)), perm_any_eq (h2 (logKeys log))]

theorem passRemainingStep_sig2 (sig1 sig2 : List String → List String)
    (h1 : ∀ l, (sig1 l).Perm l) (h2 : ∀ l, (sig2 l).Perm l)
    (ocr : List Tok) (rel : List RelLine) (log : ItemLog) (p : PLine) :
    passRemainingStep sig1 ocr rel log p = passRemainingStep sig2 ocr rel log p := by
  simp only [passRemainingStep]
  rw [perm_any_eq (h1 (logKeys log)), perm_any_eq (h2 (logKeys log))]

theorem passLastStep_sig2 (sig1 sig2 : List String → List String)
    (h1 : ∀ l, (sig1 l).Perm l) (h2 : ∀ l, (sig2 l).Perm l)
    (ocr : List Tok) (rel : List RelLine) (log : ItemLog) (r : RelLine) :
    passLastStep sig1 ocr rel log r = passLastStep sig2 ocr rel log r := by
  simp only [passLastStep]
  rw [perm_any_eq (h1 (logKeys log)), perm_any_eq (h2 (logKeys log))]

theorem passFallback_sig2 (sig1 sig2 : List String → List String)
    (h1 : ∀ l, (sig1 l).Perm l) (h2 : ∀ l, (sig2 l).Perm l)
    (ocr : List Tok) (rel : List RelLine) (pl : List RelLine) :
    passFallback sig1 ocr rel pl = passFallback sig2 ocr rel pl := by
  unfold passFallback
  have hstep : passFallbackStep sig1 ocr rel pl = passFallbackStep sig2 ocr rel pl :=
    funext fun log => funext fun r => passFallbackStep_sig2 sig1 sig2 h1 h2 ocr rel pl log r
  rw [hstep]

theorem passRemaining_sig2 (sig1 sig2 : List String → List String)
    (h1 : ∀ l, (sig1 l).Perm l) (h2 : ∀ l, (sig2 l).Perm l)
    (ocr : List Tok) (rel : List RelLine) (ps : List PLine) :
    passRemaining sig1 ocr rel ps = passRemaining sig2 ocr rel ps := by
  unfold passRemaining
  have hstep : passRemainingStep sig1 ocr rel = passRemainingStep sig2 ocr rel :=
    funext fun log => funext fun p => passRemainingStep_sig2 sig1 sig2 h1 h2 ocr rel log p
  rw [hstep]

theorem passLast_sig2 (sig1 sig2 : List String → List String)
    (h1 : ∀ l, (sig1 l).Perm l) (h2 : ∀ l, (sig2 l).Perm l)
    (ocr : List Tok) (rel : List RelLine) :
    passLast sig1 ocr rel = passLast sig2 ocr rel := by
  unfold passLast
  have hstep : passLastStep sig1 ocr rel = passLastStep sig2 ocr rel :=
    funext fun log => funext fun r => passLastStep_sig2 sig1 sig2 h1 h2 ocr rel log r
  rw [hstep]

theorem extractLineItems_sig2 (sig1 sig2 : List String → List String)
    (h1 : ∀ l, (sig1 l).Perm l) (h2 : ∀ l, (sig2 l).Perm l)
    (ocr : List Tok) (rel : List RelLine) :
    extractLineItems sig1 ocr rel = extractLineItems sig2 ocr rel := by
  simp only [extractLineItems]
  rw [passFallback_sig2 sig1 sig2 h1 h2 ocr rel,
    passRemaining_sig2 sig1 sig2 h1 h2 ocr rel,
    passLast_sig2 sig1 sig2 h1 h2 ocr rel]

theorem epicItemLogO_sig2 (sig1 sig2 : List String → List String)
    (h1 : ∀ l, (sig1 l).Perm l) (h2 : ∀ l, (sig2 l).Perm l) (ocr : List Tok) :
    epicItemLogO sig1 ocr = epicItemLogO sig2 ocr := by
  cases hb : (itemBounds ocr (group_by_lines ocr 15)).1 with
  | none => simp only [epicItemLogO, hb]
  | some sy =>
      simp only [epicItemLogO, hb]
      exact extractLineItems_sig2 sig1 sig2 h1 h2 ocr _

/-! ## Helper lemmas: line clustering -/

theorem attachTok_mem_cases (tol : Nat) (y : Int) (i : Nat) :
    ∀ (cl : List ClusterLine) (c2 : ClusterLine), c2 ∈ attachTok tol y i cl →
      c2 ∈ cl ∨
      (∃ c, c ∈ cl ∧ c2 = (c.1, c.2 ++ [i]) ∧ (y - c.1).natAbs ≤ tol) ∨
      c2 = (y, [i]) := by
  intro cl
  induction cl with
  | nil =>
      intro c2 h
      simp only [attachTok, List.mem_singleton] at h
      exact Or.inr (Or.inr h)
  | cons c cl ih =>
      obtain ⟨k, is⟩ := c
      intro c2 h
      simp only [attachTok] at h
      split at h
      · rename_i htol
        rcases List.mem_cons.mp h with rfl | h
        · exact Or.inr (Or.inl ⟨(k, is), List.mem_cons_self _ _, rfl, htol⟩)
        · exact Or.inl (List.mem_cons_of_mem _ h)
      · rcases List.mem_cons.mp h with rfl | h
        · exact Or.inl (List.mem_cons_self _ _)
        · rcases ih c2 h with h2 | h2 | h2
          · exact Or.inl (List.mem_cons_of_mem _ h2)
          · obtain ⟨c0, hc0, he, ht⟩ := h2
            exact Or.inr (Or.inl ⟨c0, List.mem_cons_of_mem _ hc0, he, ht⟩)
          · exact Or.inr (Or.inr h2)

theorem attachTok_self_mem (tol : Nat) (y : Int) (i : Nat) :
    ∀ cl : List ClusterLine, ∃ c2, c2 ∈ attachTok tol y i cl ∧ i ∈ c2.2 := by
  intro cl
  induction cl with
  | nil => exact ⟨(y, [i]), List.mem_singleton.mpr rfl, List.mem_singleton.mpr rfl⟩
  | cons c cl ih =>
      obtain ⟨k, is⟩ := c
      simp only [attachTok]
      split
      · exact ⟨(k, is ++ [i]), List.mem_cons_self _ _, by simp⟩
      · obtain ⟨c2, hc2, hi⟩ := ih
        exact ⟨c2, List.mem_cons_of_mem _ hc2, hi⟩

theorem attachTok_mono (tol : Nat) (y : Int) (i j : Nat) :
    ∀ cl : List ClusterLine, (∃ c, c ∈ cl ∧ j ∈ c.2) →
      ∃ c2, c2 ∈ attachTok tol y i cl ∧ j ∈ c2.2 := by
  intro cl
  induction cl with
  | nil => rintro ⟨c, hc, _⟩; cases hc
  | cons c cl ih =>
      obtain ⟨k, is⟩ := c
      rintro ⟨c0, hc0, hj⟩
      simp only [attachTok]
      split
      · rcases List.mem_cons.mp hc0 with rfl | hc0
        · exact ⟨(k, is ++ [i]), List.mem_cons_self _ _,
            List.mem_append.mpr (Or.inl hj)⟩
        · exact ⟨c0, List.mem_cons_of_mem _ (by exact hc0), hj⟩
      · rcases List.mem_cons.mp hc0 with rfl | hc0
        · exact ⟨(k, is), List.mem_cons_self _ _, hj⟩
        · obtain ⟨c2, hc2, hj2⟩ := ih ⟨c0, hc0, hj⟩
          exact ⟨c2, List.mem_cons_of_mem _ hc2, hj2⟩

theorem attachTok_keys (tol : Nat) (y : Int) (i : Nat) :
    ∀ cl : List ClusterLine,
      (attachTok tol y i cl).map Prod.fst = cl.map Prod.fst ∨
      ((∀ c ∈ cl, ¬ (y - c.1).natAbs ≤ tol) ∧
        (attachTok tol y i cl).map Prod.fst = cl.map Prod.fst ++ [y]) := by
  intro cl
  induction cl with
  | nil => exact Or.inr ⟨by simp, rfl⟩
  | cons c cl ih =>
      obtain ⟨k, is⟩ := c
      simp only [attachTok]
      split
      · exact Or.inl (by simp)
      · rename_i htol
        rcases ih with h | ⟨hall, h⟩
        · exact Or.inl (by simp [h])
        · refine Or.inr ⟨?_, by simp [h]⟩
          intro c0 hc0
          rcases List.mem_cons.mp hc0 with rfl | hc0
          · exact htol
          · exact hall c0 hc0

theorem gblStep_mono (tol : Nat) (cl : List ClusterLine) (e : Nat × Tok)
    (j : Nat) (h : ∃ c, c ∈ cl ∧ j ∈ c.2) :
    ∃ c2, c2 ∈ gblStep tol cl e ∧ j ∈ c2.2 := by
  simp only [gblStep]
  split
  · exact h
  · exact attachTok_mono tol e.2.top e.1 j cl h

theorem foldl_gblStep_mono (tol : Nat) (es : List (Nat × Tok)) :
    ∀ (cl : List ClusterLine) (j : Nat), (∃ c, c ∈ cl ∧ j ∈ c.2) →
      ∃ c2, c2 ∈ es.foldl (gblStep tol) cl ∧ j ∈ c2.2 := by
  induction es with
  | nil => exact fun cl j h => h
  | cons e es ih =>
      intro cl j h
      rw [List.foldl_cons]
      exact ih _ j (gblStep_mono tol cl e j h)

theorem enumFrom_fst_ge {α : Type} (l : List α) :
    ∀ n : Nat, ∀ e ∈ List.enumFrom n l, n ≤ e.1 := by
  induction l with
  | nil => intro n e h; cases h
  | cons x l ih =>
      intro n e h
      rw [List.enumFrom_cons] at h
      rcases List.mem_cons.mp h with rfl | h
      · exact le_refl n
      · exact le_trans (Nat.le_succ n) (ih (n + 1) e h)

theorem enumFrom_pairwise {α : Type} (l : List α) :
    ∀ n : Nat, (List.enumFrom n l).Pairwise fun a b => a.1 < b.1 := by
  induction l with
  | nil => intro n; simp
  | cons x l ih =>
      intro n
      rw [List.enumFrom_cons]
      refine List.Pairwise.cons ?_ (ih (n + 1))
      intro e he
      exact lt_of_lt_of_le (Nat.lt_succ_self n) (enumFrom_fst_ge l (n + 1) e he)

theorem gbl_fold_inv (tol : Nat) (ocr : List Tok) :
    ∀ (es : List (Nat × Tok)) (cl : List ClusterLine),
      (∀ e ∈ es, ocr.get? e.1 = some e.2) →
      (∀ e ∈ es, ∀ c ∈ cl, ∀ i ∈ c.2, i < e.1) →
      (es.Pairwise fun a b => a.1 < b.1) →
      ((cl.map Prod.fst).Nodup) →
      (∀ c ∈ cl, c.2.Pairwise (· < ·)) →
      (∀ c ∈ cl, ∀ i ∈ c.2, ∃ t, ocr.get? i = some t ∧
          ¬(pyTrim t.text = "" ∨ t.conf < 30) ∧ (t.top - c.1).natAbs ≤ tol) →
      (((es.foldl (gblStep tol) cl).map Prod.fst).Nodup ∧
       (∀ c ∈ es.foldl (gblStep tol) cl, c.2.Pairwise (· < ·)) ∧
       (∀ c ∈ es.foldl (gblStep tol) cl, ∀ i ∈ c.2, ∃ t, ocr.get? i = some t ∧
           ¬(pyTrim t.text = "" ∨ t.conf < 30) ∧ (t.top - c.1).natAbs ≤ tol) ∧
       (∀ e ∈ es, ¬(pyTrim e.2.text = "" ∨ e.2.conf < 30) →
           ∃ c, c ∈ es.foldl (gblStep tol) cl ∧ e.1 ∈ c.2) ∧
       (∀ j, (∃ c, c ∈ cl ∧ j ∈ c.2) →
           ∃ c, c ∈ es.foldl (gblStep tol) cl ∧ j ∈ c.2)) := by
  intro es
  induction es with
  | nil =>
      intro cl h1 h2 h3 h4 h5 h6
      exact ⟨h4, h5, h6, by simp, fun j h => h⟩
  | cons e es ih =>
      intro cl h1 h2 h3 h4 h5 h6
      rw [List.foldl_cons]
      rw [List.pairwise_cons] at h3
      by_cases hkeep : (pyTrim e.2.text = "" ∨ e.2.conf < 30)
      · have hstep : gblStep tol cl e = cl := by
          simp only [gblStep]
          rw [if_pos (by simpa using hkeep)]
        rw [hstep]
        obtain ⟨g1, g2, g3, g4, g5⟩ := ih cl
          (fun e2 he2 => h1 e2 (List.mem_cons_of_mem e he2))
          (fun e2 he2 => h2 e2 (List.mem_cons_of_mem e he2))
          h3.2 h4 h5 h6
        refine ⟨g1, g2, g3, ?_, g5⟩
        intro e2 he2 hke2
        rcases List.mem_cons.mp he2 with rfl | he2
        · exact absurd hkeep hke2
        · exact g4 e2 he2 hke2
      · have hstep : gblStep tol cl e = attachTok tol e.2.top e.1 cl := by
          simp only [gblStep]
          rw [if_neg (by simpa using hkeep)]
        rw [hstep]
        have hnod2 : ((attachTok tol e.2.top e.1 cl).map Prod.fst).Nodup := by
          rcases attachTok_keys tol e.2.top e.1 cl with hk | ⟨hall, hk⟩
          · rw [hk]; exact h4
          · rw [hk, List.nodup_append]
            refine ⟨h4, List.nodup_singleton _, ?_⟩
            intro x hx hx2
            rcases List.mem_singleton.mp hx2 with rfl
            obtain ⟨c0, hc0, hc0e⟩ := List.mem_map.mp hx
            apply hall c0 hc0
            rw [hc0e, sub_self]
            simp
        have hpw2 : ∀ c ∈ attachTok tol e.2.top e.1 cl, c.2.Pairwise (· < ·) := by
          intro c2 hc2
          rcases attachTok_mem_cases tol e.2.top e.1 cl c2 hc2 with hc | ⟨c0, hc0, rfl, _⟩ | rfl
          · exact h5 c2 hc
          · rw [List.pairwise_append]
            refine ⟨h5 c0 hc0, by simp, ?_⟩
            intro a ha b hb
            rcases List.mem_singleton.mp hb with rfl
            exact h2 e (List.mem_cons_self e es) c0 hc0 a ha
          · simp
        have htok2 : ∀ c ∈ attachTok tol e.2.top e.1 cl, ∀ i ∈ c.2,
            ∃ t, ocr.get? i = some t ∧ ¬(pyTrim t.text = "" ∨ t.conf < 30) ∧
              (t.top - c.1).natAbs ≤ tol := by
          intro c2 hc2 i hi
          rcases attachTok_mem_cases tol e.2.top e.1 cl c2 hc2 with hc | ⟨c0, hc0, rfl, ht⟩ | rfl
          · exact h6 c2 hc i hi
          · rcases List.mem_append.mp hi with hi | hi
            · exact h6 c0 hc0 i hi
            · rcases List.mem_singleton.mp hi with rfl
              exact ⟨e.2, h1 e (List.mem_cons_self e es), hkeep, ht⟩
          · rcases List.mem_singleton.mp hi with rfl
            refine ⟨e.2, h1 e (List.mem_cons_self e es), hkeep, ?_⟩
            rw [sub_self]
            simp
        have hbound2 : ∀ e2 ∈ es, ∀ c ∈ attachTok tol e.2.top e.1 cl,
            ∀ i ∈ c.2, i < e2.1 := by
          intro e2 he2 c2 hc2 i hi
          rcases attachTok_mem_cases tol e.2.top e.1 cl c2 hc2 with hc | ⟨c0, hc0, rfl, _⟩ | rfl
          · exact h2 e2 (List.mem_cons_of_mem e he2) c2 hc i hi
          · rcases List.mem_append.mp hi with hi | hi
            · exact h2 e2 (List.mem_cons_of_mem e he2) c0 hc0 i hi
            · rcases List.mem_singleton.mp hi with rfl
              exact h3.1 e2 he2
          · rcases List.mem_singleton.mp hi with rfl
            exact h3.1 e2 he2
        obtain ⟨g1, g2, g3, g4, g5⟩ := ih (attachTok tol e.2.top e.1 cl)
          (fun e2 he2 => h1 e2 (List.mem_cons_of_mem e he2))
          hbound2 h3.2 hnod2 hpw2 htok2
        refine ⟨g1, g2, g3, ?_, ?_⟩
        · intro e2 he2 hke2
          rcases List.mem_cons.mp he2 with rfl | he2
          · exact g5 e2.1 (attachTok_self_mem tol e2.2.top e2.1 cl)
          · exact g4 e2 he2 hke2
        · intro j hj
          exact g5 j (attachTok_mono tol e.2.top e.1 j cl hj)

theorem insertByKey_perm (p : ClusterLine) (l : List ClusterLine) :
    (insertByKey p l).Perm (p :: l) := by
  induction l with
  | nil => exact List.Perm.refl _
  | cons q l ih =>
      simp only [insertByKey]
      split
      · exact List.Perm.refl _
      · exact (ih.cons q).trans (List.Perm.swap p q l)

theorem sortByKey_perm (l : List ClusterLine) : (sortByKey l).Perm l := by
  induction l with
  | nil => exact List.Perm.refl _
  | cons x l ih =>
      show (insertByKey x (sortByKey l)).Perm (x :: l)
      exact (insertByKey_perm x (sortByKey l)).trans (ih.cons x)

theorem insertByKey_sorted (p : ClusterLine) {l : List ClusterLine}
    (h : l.Pairwise fun a b => a.1 ≤ b.1) :
    (insertByKey p l).Pairwise fun a b => a.1 ≤ b.1 := by
  induction l with
  | nil => simp [insertByKey]
  | cons q l ih =>
      rw [List.pairwise_cons] at h
      simp only [insertByKey]
      split
      · rename_i hpq
        refine List.Pairwise.cons ?_ (List.Pairwise.cons h.1 h.2)
        intro z hz
        rcases List.mem_cons.mp hz with rfl | hz
        · exact hpq
        · exact le_trans hpq (h.1 z hz)
      · rename_i hpq
        refine List.Pairwise.cons ?_ (ih h.2)
        intro z hz
        have hz2 : z ∈ p :: l := ((insertByKey_perm p l).mem_iff).mp hz
        rcases List.mem_cons.mp hz2 with rfl | hz2
        · exact le_of_lt (lt_of_not_le hpq)
        · exact h.1 z hz2

theorem sortByKey_sorted (l : List ClusterLine) :
    (sortByKey l).Pairwise fun a b => a.1 ≤ b.1 := by
  induction l with
  | nil => simp [sortByKey]
  | cons x l ih => exact insertByKey_sorted x ih

theorem group_by_lines_facts (ocr : List Tok) (tol : Nat) :
    ((group_by_lines ocr tol).Pairwise fun a b => a.1 < b.1) ∧
    (∀ c ∈ group_by_lines ocr tol, c.2.Pairwise (· < ·) ∧
       ∀ i ∈ c.2, ∃ t, ocr.get? i = some t ∧
         ¬(pyTrim t.text = "" ∨ t.conf < 30) ∧ (t.top - c.1).natAbs ≤ tol) ∧
    (∀ i t, ocr.get? i = some t → ¬(pyTrim t.text = "" ∨ t.conf < 30) →
       ∃ c, c ∈ group_by_lines ocr tol ∧ i ∈ c.2) := by
  obtain ⟨g1, g2, g3, g4, g5⟩ := gbl_fold_inv tol ocr ocr.enum []
    (fun e he => List.mem_enum_iff_get?.mp he)
    (by intro e _ c hc; cases hc)
    (enumFrom_pairwise ocr 0)
    (by simp)
    (by intro c hc; cases hc)
    (by intro c hc; cases hc)
  have hperm : (group_by_lines ocr tol).Perm (ocr.enum.foldl (gblStep tol) []) :=
    sortByKey_perm _
  refine ⟨?_, ?_, ?_⟩
  · have hle : (group_by_lines ocr tol).Pairwise fun a b => a.1 ≤ b.1 :=
      sortByKey_sorted _
    have hnd : ((group_by_lines ocr tol).map Prod.fst).Nodup :=
      ((hperm.map Prod.fst).nodup_iff).mpr g1
    have hne : (group_by_lines ocr tol).Pairwise fun a b => a.1 ≠ b.1 :=
      List.pairwise_map.mp hnd
    exact (hle.and hne).imp fun h => lt_of_le_of_ne h.1 h.2
  · intro c hc
    have hc2 := hperm.mem_iff.mp hc
    exact ⟨g2 c hc2, g3 c hc2⟩
  · intro i t hget hkeep
    obtain ⟨c, hc, hic⟩ := g4 (i, t) (List.mem_enum_iff_get?.mpr hget) hkeep
    exact ⟨c, hperm.mem_iff.mpr hc, hic⟩

theorem markerTotal_eq_findSome (ocr : List Tok) :
    ∀ lines : List ClusterLine,
      markerTotal ocr lines = lines.findSome? fun l =>
        if totalMarkerLine (pyLower (lineTextOf ocr l.2)) = true then
          lineMarkerAmount ocr l.2
        else none := by
  intro lines
  induction lines with
  | nil => rfl
  | cons l rest ih =>
      rw [List.findSome?_cons]
      simp only [markerTotal]
      by_cases hm : totalMarkerLine (pyLower (lineTextOf ocr l.2)) = true
      · rw [if_pos hm, if_pos hm]
        cases ha : lineMarkerAmount ocr l.2 with
        | none => simpa [ha] using ih
        | some t => simp [ha]
      · rw [if_neg hm, if_neg hm]
        simpa using ih

theorem decimalStr_exists {s : String} (hs : decimalStr s = true) :
    ∃ q, pyFloat? s = some q ∧ 0 ≤ q := by
  unfold decimalStr at hs
  cases hq : pyFloat? s with
  | none => rw [hq] at hs; cases hs
  | some q => exact ⟨q, rfl, pyFloat?_nonneg hq⟩

/-! ## Claim theorems -/

/-- Claim C1, counterexample: on a document with two complete product
lines of identical text and price at different heights, the complete-line
pass emits two items with the same product_number and unit_price, so it is
false that every pass suppresses a new item when an item with the same
product_number and unit_price already exists. -/
theorem epic_dedup_pair_claim_false :
    (extract_invoice_data ctoksA).map EpicRecord.line_items =
      some [⟨"wax rim lower", "Lower wax bite rim", "2.00", "45.00", "45.00"⟩,
            ⟨"wax rim lower", "Lower wax bite rim", "2.00", "45.00", "45.00"⟩] ∧
    ¬ (List.Pairwise
        (fun a b : LineItem =>
          ¬(a.product_number = b.product_number ∧ a.unit_price = b.unit_price))
        [⟨"wax rim lower", "Lower wax bite rim", "2.00", "45.00", "45.00"⟩,
         ⟨"wax rim lower", "Lower wax bite rim", "2.00", "45.00", "45.00"⟩]) := by
  constructor
  · decide
  · decide

/-- Claim C1 (amended): every emitted line item is logged under a key
string derived from its source position (the vertical position, or the
position pair for paired lines); no two emissions share a key, hence the
(product_number, unit_price, key) triples of the log are pairwise
distinct, and the line_items of a produced record are exactly the logged
items in order.  Suppression of repeated (product_number, unit_price)
pairs happens only in the remaining-price-only and final passes, not in
every pass. -/
theorem epic_lineItem_key_dedup :
    ∀ ocr : List Tok,
      ((epicItemLogO id ocr).Pairwise fun a b =>
        (a.2.product_number, a.2.unit_price, a.1) ≠
        (b.2.product_number, b.2.unit_price, b.1)) ∧
      ∀ r, extract_invoice_data ocr = some r →
        r.line_items = logItems (epicItemLogO id ocr) := by
  intro ocr
  constructor
  · have hnd := (epicItemLog_good id ocr).1
    have hne : (epicItemLogO id ocr).Pairwise fun a b => a.1 ≠ b.1 :=
      List.pairwise_map.mp hnd
    refine hne.imp ?_
    intro a b h heq
    exact h (congrArg (fun t => t.2.2) heq)
  · exact fun r hr => (extract_some_fields hr).1

/-- Witness for C1 at the concrete document ctoksA. -/
theorem epic_lineItem_key_dedup_witness :
    recA.line_items = logItems (epicItemLogO id ctoksA) :=
  (epic_lineItem_key_dedup ctoksA).2 recA (by decide)

/-- Claim C2, counterexample: the Exodus ruleset emits the literal N/A as
the Quantity of every line item, which does not parse as a decimal. -/
theorem exodus_quantity_not_decimal :
    (parse_exodus_invoice exodusText1).line_items =
      [⟨"N/A", "Crown Item", "N/A", "50.00", "50.00"⟩] ∧
    decimalStr "N/A" = false := by
  constructor
  · decide
  · decide

/-- Claim C2 (amended): in the Epic ruleset every produced line item has a
Quantity, a unit_price and a line_item_total that parse as non-negative
decimals; the Exodus ruleset instead emits the literal N/A as Quantity of
every item. -/
theorem lineItem_numeric_fields_amended :
    (∀ ocr r, extract_invoice_data ocr = some r → ∀ it ∈ r.line_items,
       (∃ q, pyFloat? it.Quantity = some q ∧ 0 ≤ q) ∧
       (∃ q, pyFloat? it.unit_price = some q ∧ 0 ≤ q) ∧
       (∃ q, pyFloat? it.line_item_total = some q ∧ 0 ≤ q)) ∧
    (∀ text : String, ∀ it ∈ (parse_exodus_invoice text).line_items,
       it.Quantity = "N/A") := by
  constructor
  · intro ocr r hr it hit
    rw [(extract_some_fields hr).1] at hit
    obtain ⟨e, he, rfl⟩ := List.mem_map.mp hit
    obtain ⟨ht, hq, hu⟩ := (epicItemLog_good id ocr).2 e he
    refine ⟨decimalStr_exists hq, decimalStr_exists hu, ?_⟩
    rw [ht]
    exact decimalStr_exists hu
  · intro text it hit
    simp only [parse_exodus_invoice] at hit
    exact (exodusItems_fields _ it hit).1

/-- Witness for C2: concrete quantities and prices of the first item of
the document ctoksA, and the N/A quantity of the Exodus document. -/
theorem lineItem_numeric_fields_amended_witness :
    (∃ q, pyFloat? ("2.00") = some q ∧ 0 ≤ q) ∧
    ((parse_exodus_invoice exodusText1).line_items.all
      fun it => it.Quantity == "N/A") = true := by
  constructor
  · exact (lineItem_numeric_fields_amended.1 ctoksA recA (by decide)
      ⟨"wax rim lower", "Lower wax bite rim", "2.00", "45.00", "45.00"⟩
      (by decide)).1
  · rw [List.all_eq_true]
    intro it hit
    have h := lineItem_numeric_fields_amended.2 exodusText1 it hit
    simpa using h

/-- Claim C10: in every line item emitted by either ruleset the total
string is literally the unit price string; the total is never computed as
quantity times unit price. -/
theorem line_item_total_equals_unit_price :
    (∀ ocr r, extract_invoice_data ocr = some r →
       ∀ it ∈ r.line_items, it.line_item_total = it.unit_price) ∧
    (∀ text : String, ∀ it ∈ (parse_exodus_invoice text).line_items,
       it.line_item_total = it.unit_price) := by
  constructor
  · intro ocr r hr it hit
    rw [(extract_some_fields hr).1] at hit
    obtain ⟨e, he, rfl⟩ := List.mem_map.mp hit
    exact ((epicItemLog_good id ocr).2 e he).1
  · intro text it hit
    simp only [parse_exodus_invoice] at hit
    exact (exodusItems_fields _ it hit).2.2

/-- Witness for C10 on the documents ctoksA and exodusText1. -/
theorem line_item_total_equals_unit_price_witness :
    (recA.line_items.all fun it => it.line_item_total == it.unit_price) = true ∧
    ((parse_exodus_invoice exodusText1).line_items.all
      fun it => it.line_item_total == it.unit_price) = true := by
  constructor
  · rw [List.all_eq_true]
    intro it hit
    have h := line_item_total_equals_unit_price.1 ctoksA recA (by decide) it hit
    simpa using h
  · rw [List.all_eq_true]
    intro it hit
    have h := line_item_total_equals_unit_price.2 exodusText1 it hit
    simpa using h

/-- Claim C3, counterexample: two tokens of one visual row whose input
order reverses their horizontal order are stored in input order, so the
cluster value lists are not ordered by horizontal position. -/
theorem group_by_lines_not_x_ordered :
    group_by_lines ctoksE 15 = [(10, [0, 1])] ∧
    ¬ ([0, 1].Pairwise fun i j =>
        ((ctoksE.get? i).map Tok.left).getD 0 ≤ ((ctoksE.get? j).map Tok.left).getD 0) := by
  constructor
  · decide
  · decide

/-- Claim C3 (amended): clustering drops blank and low-confidence tokens,
attaches each remaining token in input order to the first cluster within
the tolerance of its vertical position or opens a new cluster, and returns
the clusters in strictly ascending key order; within a cluster the token
indices appear in input order (not horizontal order), every stored token
is non-blank with confidence at least 30 and lies within the tolerance of
the cluster key, and every such token of the input is stored somewhere. -/
theorem group_by_lines_spec_amended :
    ∀ (ocr : List Tok) (tol : Nat),
      ((group_by_lines ocr tol).Pairwise fun a b => a.1 < b.1) ∧
      (∀ c ∈ group_by_lines ocr tol, c.2.Pairwise (· < ·) ∧
         ∀ i ∈ c.2, ∃ t, ocr.get? i = some t ∧
           ¬(pyTrim t.text = "" ∨ t.conf < 30) ∧ (t.top - c.1).natAbs ≤ tol) ∧
      (∀ i t, ocr.get? i = some t → ¬(pyTrim t.text = "" ∨ t.conf < 30) →
         ∃ c, c ∈ group_by_lines ocr tol ∧ i ∈ c.2) :=
  fun ocr tol => group_by_lines_facts ocr tol

/-- Witness for C3: the kept token 1 of the two-token document lands in a
cluster. -/
theorem group_by_lines_spec_amended_witness :
    (group_by_lines ctoksE 15).any (fun c => c.2.contains 1) = true := by
  obtain ⟨c, hc, hic⟩ := (group_by_lines_spec_amended ctoksE 15).2.2 1
    ⟨"b", 10, 10, 90⟩ (by decide) (by decide)
  rw [List.any_eq_true]
  exact ⟨c, hc, List.elem_iff.mpr hic⟩

/-- Claim C4, counterexample: the document ctoksC has a total line whose
marker scan yields 50.00, but because its extracted invoice number is 5418
the hard-coded override forces the total to 0.00, so the total is not
taken from the first marker line for every input document. -/
theorem total_override_5418_counterexample :
    (extract_invoice_data ctoksC).map EpicRecord.total = some "0.00" ∧
    markerTotal ctoksC (group_by_lines ctoksC 15) = some "50.00" ∧
    ("0.00" : String) ≠ "50.00" := by
  refine ⟨by decide, by decide, by decide⟩

/-- Claim C4 (amended): the marker scan takes the first total, amount-due
or balance-due line without the word extended that yields an amount; when
it yields one and the invoice number is not the hard-coded 5418, that
amount is the total; otherwise the collected amount with the largest
vertical position wins (dollar-prefixed amounts without a range bound,
bare amounts bounded to 10..1000 during collection); with no amounts at
all the total defaults to 0.00; an invoice number of 5418 forces 0.00. -/
theorem total_resolution_amended :
    (∀ ocr (lines : List ClusterLine),
      markerTotal ocr lines = lines.findSome? fun l =>
        if totalMarkerLine (pyLower (lineTextOf ocr l.2)) = true then
          lineMarkerAmount ocr l.2
        else none) ∧
    (∀ ocr r, extract_invoice_data ocr = some r →
      (r.invoice_number = "5418" → r.total = "0.00") ∧
      (r.invoice_number ≠ "5418" →
        (∀ t, markerTotal ocr (group_by_lines ocr 15) = some t → r.total = t) ∧
        (markerTotal ocr (group_by_lines ocr 15) = none →
          ∀ das, collectDollarAmounts ocr (group_by_lines ocr 15) = Except.ok das →
            (das = [] → r.total = "0.00") ∧
            (das ≠ [] → ∃ x, x ∈ das ∧ r.total = x.2.1 ∧
               ∀ z ∈ das, z.2.2 ≤ x.2.2)))) := by
  constructor
  · exact markerTotal_eq_findSome
  · intro ocr r hr
    obtain ⟨_, hinv, t0, htot, hteq⟩ := extract_some_fields hr
    constructor
    · intro h5418
      have hcond : (scanNumDate "" (ocr.map Tok.text)).1 = "5418" := by
        rw [← hinv]; exact h5418
      rw [hteq, if_pos hcond]
    · intro hne
      have hcond : ¬ (scanNumDate "" (ocr.map Tok.text)).1 = "5418" := by
        rw [← hinv]; exact hne
      rw [hteq, if_neg hcond]
      constructor
      · intro t hmt
        simp only [totalOfLines, hmt] at htot
        cases htot
        rfl
      · intro hmt das hdas
        simp only [totalOfLines, hmt, hdas, bind, Except.bind] at htot
        constructor
        · rintro rfl
          have hnil : pySortDesc (fun x => x.2.2) ([] : List (ℚ × String × Int)) = [] := rfl
          rw [hnil] at htot
          simp only [List.head?_nil] at htot
          cases htot
          exact ite_self "0.00"
        · intro hne2
          obtain ⟨x, hx, hhead, hmax⟩ := pySortDesc_head_max (fun z => z.2.2) das hne2
          rw [hhead] at htot
          cases htot
          exact ⟨x, hx, rfl, hmax⟩

/-- Witness for C4: the override applied to the concrete document ctoksC. -/
theorem total_resolution_amended_witness : recC.total = "0.00" :=
  (total_resolution_amended.2 ctoksC recC (by decide)).1 (by decide)

/-- Claim C5: on the document ctoksB the only quantity-only candidate
carries the quantity 2.00, the paired price-only candidate stores the
borrowed default quantity 1, and every emitted item carries 1: the pairing
pass copies the quantity stored on the price line (the loop variable of
line 487 shadows the quantity of the quantity line), not the quantity of
the QuantityOnly line. -/
theorem pair_pass_quantity_from_price_line :
    ((epicClassified ctoksB).2.1.map QLine.qty = ["2.00"]) ∧
    ((epicClassified ctoksB).2.2.map PLine.qty = ["1"]) ∧
    ((extract_invoice_data ctoksB).map (fun r => r.line_items.map LineItem.Quantity) =
      some ["1", "1"]) := by
  refine ⟨by decide, by decide, by decide⟩

/-- Claim C6, counterexample: a ruleset that exits cleanly and prints a
JSON dump containing the words vendor and invoice_number wins the
detection although its vendor-specific marker is absent. -/
theorem detect_generic_marker_counterexample :
    detect_vendor_from_pdf env0 = some "epic" ∧
    vendorSpecificMarker "epic" "json vendor invoice_number dump" = false := by
  refine ⟨by decide, by decide⟩

/-- Claim C6 (amended): detection walks the fixed vendor order and picks
the first trial whose script exists, completes without crash or timeout,
exits with code zero and prints either its vendor-specific marker or the
generic JSON shape (vendor and invoice_number); a truthy known hint that
run_parser confirms short-circuits detection; with no winner the router
prints unknown and exits 1. -/
theorem vendor_router_detection_amended :
    (∀ env, detect_vendor_from_pdf env = vendorOrder.find? (detectAccepts env)) ∧
    (∀ env, routerMain none env =
      match detect_vendor_from_pdf env with
      | some v => (v, 0)
      | none => ("unknown", 1)) ∧
    (∀ env hint, routerMain (some hint) env =
      if hint ≠ "" && vendorOrder.contains hint && runParser env hint then (hint, 0)
      else match detect_vendor_from_pdf env with
      | some v => (v, 0)
      | none => ("unknown", 1)) := by
  refine ⟨fun env => detectGo_eq_find env vendorOrder, fun env => rfl,
    fun env hint => rfl⟩

/-- Claim C7: an explicit due date always wins; with no explicit due date,
a parsed invoice date and a matching relative pattern, the result is the
invoice date plus the parsed day count in the month/day/year format. -/
theorem due_date_net60_and_fallback :
    (∀ (text : String) (inv : Option String) (e : String),
        extract_exact_due_date text = some e →
        extract_due_date text inv = some e) ∧
    (∀ (text inv : String) (dt : PDate) (days : Nat),
        extract_exact_due_date text = none →
        (if inv.data.contains '/' then parseMDY inv else parseYMD inv) = some dt →
        relDuePatterns.findSome? (fun pat => scanFirst pat text.data) = some days →
        extract_due_date text (some inv) = some (fmtMDY (addDays dt days))) := by
  constructor
  · intro text inv e he
    unfold extract_due_date
    rw [he]
  · intro text inv dt days hex hparse hrel
    have hinv : inv ≠ "" := by
      intro hemp
      rw [hemp] at hparse
      have hnone :
          (if ("" : String).data.contains '/' = true then parseMDY "" else parseYMD "") =
            (none : Option PDate) := by decide
      rw [hnone] at hparse
      exact Option.noConfusion hparse
    unfold extract_due_date
    rw [hex]
    show (if inv ≠ "" then extract_relative_due_date text inv else none) =
      some (fmtMDY (addDays dt days))
    rw [if_pos hinv]
    simp only [extract_relative_due_date, hparse]
    rw [findSome?_map_eq (fun pat => scanFirst pat text.data)
      (fun days => fmtMDY (addDays dt days)) relDuePatterns, hrel]
    rfl

/-- Witness for C7: the Net 60 scenario of the specification. -/
theorem due_date_net60_witness :
    extract_due_date "Net 60 days" (some "01/15/2025") = some "03/16/2025" := by
  have h := due_date_net60_and_fallback.2 "Net 60 days" "01/15/2025"
    ⟨2025, 1, 15⟩ 60 (by decide) (by decide) (by decide)
  exact h.trans (by decide)

/-- Claim C8, counterexample: the token list ctoksD carries no token whose
stripped digits pass the validator of the specification (four or more
digits), yet the extracted invoice number is the three-digit 123, because
the source measures the length on the raw token including the hash. -/
theorem invoice_number_hash123_counterexample :
    (extract_invoice_data ctoksD).map EpicRecord.invoice_number = some "123" ∧
    ((ctoksD.map Tok.text).map pyTrim).all (fun w => !specInvNumValid w) = true ∧
    ("123" : String).length < 4 := by
  refine ⟨by decide, by decide, by decide⟩

/-- Claim C8 (amended): the invoice number is the hash-stripped form of
the first non-blank trimmed token, in input order, that passes the
validator of the source: digits with an optional hash prefix, length at
least four counted on the raw token including the hash, and no embedded
separators; no later token is considered, and with no such token the field
stays empty. -/
theorem invoice_number_first_match_amended :
    ∀ ocr r, extract_invoice_data ocr = some r →
      r.invoice_number =
        (match ((ocr.map Tok.text).map pyTrim |>.filter fun w => w ≠ "").find? invNumValid with
         | some w => remHash w
         | none => "") := by
  intro ocr r hr
  rw [(extract_some_fields hr).2.1, scanNumDate_fst]

/-- Witness for C8 at the concrete document ctoksD. -/
theorem invoice_number_first_match_amended_witness :
    recD.invoice_number =
      (match ((ctoksD.map Tok.text).map pyTrim |>.filter fun w => w ≠ "").find? invNumValid with
       | some w => remHash w
       | none => "") :=
  invoice_number_first_match_amended ctoksD recD (by decide)

/-- Claim C9: the assembled record is a deterministic function of the
token input; the only run-to-run varying ingredient of the source, the
iteration order of the processed_products set, cannot influence the
output: any two order oracles that permute the key list give identical
records on every input. -/
theorem extract_deterministic_in_set_order :
    ∀ sig1 sig2 : List String → List String,
      (∀ l, (sig1 l).Perm l) → (∀ l, (sig2 l).Perm l) →
      ∀ ocr, extractO sig1 ocr = extractO sig2 ocr := by
  intro sig1 sig2 h1 h2 ocr
  simp only [extractO]
  rw [epicItemLogO_sig2 sig1 sig2 h1 h2 ocr]

/-- Witness for C9: reversed set order against insertion order on a
concrete document. -/
theorem extract_deterministic_in_set_order_witness :
    extractO List.reverse ctoksA = extractO id ctoksA :=
  extract_deterministic_in_set_order List.reverse id
    (fun l => l.reverse_perm) (fun l => List.Perm.refl l) ctoksA

end PCS

